import Mathlib

/-!
Shallow embedding of the data-cleaning pipeline in
`src/data_pipeline/pd_pipeline.py` (pandas implementation) and its
configuration model in `src/data_pipeline/config.py`.

Tables are modelled as a column-name list plus rows of association lists
from column name to `Value`.  Numbers are modelled as rationals; the
pandas missing markers (`None`, `NaN`, `pd.NA`) are conflated into a
single `Value.null` (comments note the few places where the flavour of
the missing marker would matter to pandas comparison semantics).
-/

namespace DataPipeline

-- Rational arithmetic in the Lean core library is sealed against
-- unfolding; reopening it lets concrete pipeline runs evaluate inside
-- `decide` proofs.
attribute [local semireducible] Rat.add Rat.mul Rat.sub Rat.inv

/-- Cell values of a table: null (NaN/None/NA), a number (rational,
modelling int64/float64 cells), a string, or a boolean. -/
inductive Value
  | null
  | num (q : ℚ)
  | str (s : String)
  | bool (b : Bool)
deriving DecidableEq, Repr

/-- Rows are association lists from column name to value, mirroring a
pandas row restricted to the frame's columns. -/
abbrev Row := List (String × Value)

/-- Tables carry the column list of the DataFrame plus the rows. -/
structure Table where
  cols : List String
  rows : List Row
deriving DecidableEq, Repr

/-- Reads a cell; a key absent from the row reads as null (pandas rows
always carry every column, so this default is only a totality device). -/
def Row.getV (r : Row) (c : String) : Value :=
  match r.find? (fun p => p.1 == c) with
  | some p => p.2
  | none => Value.null

/-- Writes a cell, replacing the entry of an existing key and appending
the key otherwise (pandas rows always carry every frame column, so the
append branch only serves totality: `df.loc[:, c] = ...` writes an
existing column). -/
def Row.setV (r : Row) (c : String) (v : Value) : Row :=
  if r.any (fun p => p.1 == c) then
    r.map (fun p => if p.1 == c then (p.1, v) else p)
  else r ++ [(c, v)]

/-- Extracts a column as a list of values, one per row. -/
def Table.col (t : Table) (c : String) : List Value :=
  t.rows.map (fun r => r.getV c)

/-- Replaces a column with the given values (one per row), mirroring
`df.loc[:, c] = series`. -/
def Table.setCol (t : Table) (c : String) (vs : List Value) : Table :=
  { t with rows := (t.rows.zip vs).map (fun p => p.1.setV c p.2) }

/-- Floor of a rational as flooring integer division of numerator by
denominator (kernel-computable). -/
def qfloor (x : ℚ) : ℤ := Int.fdiv x.num x.den

/-- Half-to-even rounding of a rational to an integer, matching the
numpy rounding used by `Series.round`. -/
def rnd2 (x : ℚ) : ℤ :=
  let f : ℤ := qfloor x
  let r : ℚ := x - f
  if r < 1/2 then f
  else if r > 1/2 then f + 1
  else if f % 2 = 0 then f else f + 1

/-- Integer power of ten as a rational, accepting negative exponents
(`decimal_places` is an int in the source configuration). -/
def pow10 (dp : ℤ) : ℚ :=
  if 0 ≤ dp then ((10 : ℚ) ^ dp.toNat) else 1 / ((10 : ℚ) ^ (-dp).toNat)

/-- Rounds a rational to `dp` decimal places with half-to-even ties,
matching `Series.round(dp)`. -/
def roundTo (dp : ℤ) (x : ℚ) : ℚ :=
  (rnd2 (x * pow10 dp) : ℚ) / pow10 dp

/-- Interprets a list of ASCII digits as a natural number; none when the
list is empty or holds a non-digit. -/
def digitsToNat : List Char → Option ℕ
  | [] => none
  | l =>
    if l.all Char.isDigit then
      some (l.foldl (fun acc c => acc * 10 + (c.toNat - 48)) 0)
    else none

/-- Splits the longest leading run of digits off a character list. -/
def takeDigits : List Char → List Char × List Char
  | [] => ([], [])
  | c :: cs =>
    if c.isDigit then
      let p := takeDigits cs
      (c :: p.1, p.2)
    else ([], c :: cs)

/-- Strips leading and trailing whitespace from a character list
(Python str.strip / String.trim, reimplemented so that it evaluates
under kernel reduction). -/
def trimChars (l : List Char) : List Char :=
  ((l.dropWhile Char.isWhitespace).reverse.dropWhile Char.isWhitespace).reverse

/-- String trim via `trimChars`. -/
def trimS (s : String) : String := String.mk (trimChars s.toList)

/-- String lowercasing via character mapping. -/
def lowerS (s : String) : String := String.mk (s.toList.map Char.toLower)

/-- Head match of a needle against a haystack position. -/
def headMatch : List Char → List Char → Bool
  | [], _ => true
  | _ :: _, [] => false
  | n :: ns, h :: hs => n == h && headMatch ns hs

/-- Left-to-right non-overlapping substring replacement (Python
str.replace); the fuel starts at the haystack length, which suffices
because every step consumes at least one character. -/
def replaceFuel (needle repl : List Char) : ℕ → List Char → List Char
  | 0, l => l
  | _ + 1, [] => []
  | fuel + 1, c :: rest =>
    if needle ≠ [] ∧ headMatch needle (c :: rest) then
      repl ++ replaceFuel needle repl fuel ((c :: rest).drop needle.length)
    else c :: replaceFuel needle repl fuel rest

/-- String replacement via `replaceFuel`. -/
def replaceS (s needle repl : String) : String :=
  String.mk (replaceFuel needle.toList repl.toList s.toList.length s.toList)

/-- Splits a character list at every separator (separators are
consumed; adjacent separators yield empty groups). -/
def splitCh (p : Char → Bool) : List Char → List (List Char)
  | [] => [[]]
  | c :: rest =>
    if p c then [] :: splitCh p rest
    else
      match splitCh p rest with
      | g :: gs => (c :: g) :: gs
      | [] => [[c]]

/-- Parses an unsigned decimal numeral `digits[.digits]`, `.digits` or
`digits.` into a rational.  Models the common core of `float(...)` and
`pd.to_numeric`; exponent forms, underscores, and inf/nan words are not
modelled (no claim exercises them). -/
def parseUnsignedDec (l : List Char) : Option ℚ :=
  let p := takeDigits l
  match p.2 with
  | [] =>
    match digitsToNat p.1 with
    | some n => some (n : ℚ)
    | none => none
  | '.' :: rest =>
    let fr := takeDigits rest
    if fr.2 = [] then
      if p.1 = [] ∧ fr.1 = [] then none
      else
        let ip : ℚ := ((p.1.foldl (fun acc c => acc * 10 + (c.toNat - 48)) 0 : ℕ) : ℚ)
        let fp : ℚ := ((fr.1.foldl (fun acc c => acc * 10 + (c.toNat - 48)) 0 : ℕ) : ℚ)
        some (ip + fp / ((10 : ℚ) ^ fr.1.length))
    else none
  | _ => none

/-- Parses an optionally signed decimal numeral into a rational. -/
def parseDec (l : List Char) : Option ℚ :=
  match l with
  | '-' :: rest => (parseUnsignedDec rest).map (fun q => -q)
  | '+' :: rest => parseUnsignedDec rest
  | _ => parseUnsignedDec l

/-- Parses a trimmed string as a number the way `float(...)` /
`pd.to_numeric(..., errors="coerce")` would for plain decimal forms. -/
def parseNumStr (s : String) : Option ℚ :=
  parseDec (trimChars s.toList)

/-- Repeats a character. -/
def charRep (c : Char) : ℕ → List Char
  | 0 => []
  | n + 1 => c :: charRep c n

/-- Prints a natural number padded on the left with zeros to `w` digits. -/
def padNat (n : ℕ) (w : ℕ) : String :=
  let s := toString n
  String.mk (charRep '0' (w - s.length)) ++ s

/-- Finds the least `k ≤ 30` with `q * 10^k` integral. -/
def decExponent (q : ℚ) : Option ℕ :=
  (List.range 31).find? (fun k => (q * ((10 : ℚ) ^ k)).den == 1)

/-- Renders a number the way `str(...)` renders the cell in a pandas
object column.  Integral rationals print without a decimal point (int
cells); finite decimals print exactly; a non-decimal rational (which no
float cell can be) falls back to a 12-digit truncation.  Only the sign
and the leading integer digits are ever consumed by the parsers that
receive this string. -/
def numStr (q : ℚ) : String :=
  let sign := if q < 0 then "-" else ""
  let a : ℚ := |q|
  if q.den = 1 then sign ++ toString q.num.natAbs
  else
    match decExponent a with
    | some k =>
      let scaled : ℕ := (a * ((10 : ℚ) ^ k)).num.natAbs
      let ip : ℕ := scaled / 10 ^ k
      let fp : ℕ := scaled % 10 ^ k
      sign ++ toString ip ++ "." ++ padNat fp k
    | none =>
      let ip : ℕ := (qfloor a).natAbs
      let fp : ℕ := (qfloor ((a - (qfloor a : ℤ)) * (10 : ℚ) ^ 12)).natAbs
      sign ++ toString ip ++ "." ++ padNat fp 12

/-- Renders a value the way `str(v)` does for a cell of an object
column: numbers via `numStr`, booleans as Python booleans. -/
def pyStr : Value → String
  | Value.null => "nan"
  | Value.num q => numStr q
  | Value.str s => s
  | Value.bool b => if b then "True" else "False"

/-- Models `astype("string")`: null stays missing, other values render
to their string form. -/
def pyStrOpt : Value → Option String
  | Value.null => none
  | v => some (pyStr v)

/-- Reads a cell as a number the way `pd.to_numeric(.., errors="coerce")`
does: numbers pass through, numeric strings parse, booleans become 0/1,
everything else (and null) coerces to NaN. -/
def toNumericVal : Value → Option ℚ
  | Value.null => none
  | Value.num q => some q
  | Value.str s => parseNumStr s
  | Value.bool b => some (if b then 1 else 0)

/-- Report entry values: counts, an optional rational (the outlier
median, possibly NaN), booleans, string lists and per-field count maps,
mirroring the step-report dicts of the source. -/
inductive RVal
  | n (k : ℕ)
  | mq (x : Option ℚ)
  | b (v : Bool)
  | ss (l : List String)
  | fs (m : List (String × ℕ))
deriving DecidableEq, Repr

/-- Step reports are name-to-value dicts. -/
abbrev StepReport := List (String × RVal)

/-- Keeps the first occurrence of each element, dropping later repeats
(the `seen` accumulator holds elements already emitted). -/
def dedupFirst [DecidableEq α] (seen : List α) : List α → List α
  | [] => []
  | x :: xs =>
    if x ∈ seen then dedupFirst seen xs
    else x :: dedupFirst (x :: seen) xs

/-- Models Python truthiness of an optional string option such as
`cfg.ratings.column` (None and the empty string are falsy). -/
def truthyCol : Option String → Bool
  | none => false
  | some s => s != ""

-- ---------- Price normalization (standardize_prices_pd) ----------

/-- Drops every character except digits, minus, dot, comma and
parentheses, mirroring `_CURRENCY_RE` substitution. -/
def stripCurrency (l : List Char) : List Char :=
  l.filter (fun c => c.isDigit || c ∈ ['-', '.', ',', '(', ')'])

/-- Rewrites an accounting-style fully parenthesized string to a leading
minus, mirroring the substitution of `^\((.*)\)$` with `-\1`. -/
def parenNeg (l : List Char) : List Char :=
  match l with
  | '(' :: rest =>
    if rest.getLast? = some ')' then '-' :: rest.dropLast else '(' :: rest
  | _ => l

/-- Full per-cell price parse: render to string, strip currency noise,
drop thousands commas, fold parentheses into a minus, then parse as a
number; none models an unparsable cell (NaN after `to_numeric`). -/
def priceParseCell (v : Value) : Option ℚ :=
  (pyStrOpt v).bind (fun s =>
    parseDec (parenNeg ((stripCurrency s.toList).filter (fun c => c ≠ ','))))

/-- Initial per-field report dict `{f: 0 for f in fields if f in cols}`
(dict keys keep first-occurrence order). -/
def repInit (fields cols : List String) : List (String × ℕ) :=
  (dedupFirst [] (fields.filter (fun f => f ∈ cols))).map (fun f => (f, 0))

/-- Updates one key of a per-field count dict. -/
def repSet (rep : List (String × ℕ)) (f : String) (n : ℕ) : List (String × ℕ) :=
  rep.map (fun p => if p.1 == f then (p.1, n) else p)

/-- Processes the price fields in order, threading the table; mirrors
the loop body of `standardize_prices_pd`. -/
def priceFieldsLoop (dp : ℤ) (coerce : Bool) :
    List String → Table → List (String × ℕ) → Table × List (String × ℕ)
  | [], t, rep => (t, rep)
  | f :: fs, t, rep =>
    if f ∈ t.cols then
      let nums := (t.col f).map priceParseCell
      let newCol := (nums.zip (t.col f)).map (fun p =>
        match p.1 with
        | some q => Value.num (roundTo dp q)
        | none => if coerce then Value.null else p.2)
      let cnt := nums.countP (fun x => x.isSome)
      priceFieldsLoop dp coerce fs (t.setCol f newCol) (repSet rep f cnt)
    else
      priceFieldsLoop dp coerce fs t rep

/-- Embeds `standardize_prices_pd`. -/
def standardize_prices (t : Table) (fields : List String) (dp : ℤ)
    (coerce : Bool) : Table × StepReport :=
  let p := priceFieldsLoop dp coerce fields t (repInit fields t.cols)
  (p.1, [("prices_standardized", RVal.fs p.2)])

/-- Price step configuration (`PriceConfig` in config.py); the
`allow_parentheses_negative` flag exists in the configuration model. -/
structure PriceConfig where
  fields : List String
  allow_parentheses_negative : Bool
  decimal_places : ℤ
  coerce_invalid_to_null : Bool
deriving DecidableEq, Repr

/-- Invokes the price step the way `run_cleaning_df` does from a
`PriceConfig` (it passes fields, decimal places and the coercion flag). -/
def priceStepCfg (t : Table) (cfg : PriceConfig) : Table × StepReport :=
  standardize_prices t cfg.fields cfg.decimal_places cfg.coerce_invalid_to_null

-- ---------- Rating parsing (_parse_rating_val) ----------

/-- Clamps onto the 1..5 scale, mirroring `max(1.0, min(scale_max, x))`
with `scale_max` fixed at 5. -/
def clamp15 (x : ℚ) : ℚ := max 1 (min 5 x)

/-- Parses a `\d+(\.\d+)?` numeric prefix, returning value and rest; the
fractional part is only consumed when a dot is followed by digits. -/
def numHead (l : List Char) : Option (ℚ × List Char) :=
  let p := takeDigits l
  if p.1 = [] then none
  else
    let ip : ℚ := ((p.1.foldl (fun acc c => acc * 10 + (c.toNat - 48)) 0 : ℕ) : ℚ)
    match p.2 with
    | '.' :: rest =>
      let fr := takeDigits rest
      if fr.1 = [] then some (ip, p.2)
      else
        let fp : ℚ := ((fr.1.foldl (fun acc c => acc * 10 + (c.toNat - 48)) 0 : ℕ) : ℚ)
        some (ip + fp / ((10 : ℚ) ^ fr.1.length), fr.2)
    | _ => some (ip, p.2)

/-- Matches `_STAR_RE` (`^(\d+(?:\.\d+)?)\s*stars?$`, case-insensitive)
and returns the clamped star count. -/
def starMatch (l : List Char) : Option ℚ :=
  match numHead l with
  | some (x, rest) =>
    let w := (rest.dropWhile Char.isWhitespace).map Char.toLower
    if w = "star".toList ∨ w = "stars".toList then some (clamp15 x) else none
  | none => none

/-- Matches `_FRAC_RE` (`^(\d+(?:\.\d+)?)\s*/\s*(\d+(?:\.\d+)?)$`);
for a positive denominator maps `a/b` onto the 5-point scale and clamps,
and for a zero denominator the source returns null. -/
def fracMatch (l : List Char) : Option ℚ :=
  match numHead l with
  | some (a, rest) =>
    match rest.dropWhile Char.isWhitespace with
    | c :: r2 =>
      if c = '/' then
        match numHead (r2.dropWhile Char.isWhitespace) with
        | some (b, r3) =>
          if r3 = [] then (if 0 < b then some (clamp15 (a / b * 5)) else none)
          else none
        | none => none
      else none
    | [] => none
  | none => none

/-- Embeds `_parse_rating_val` on a string: a positive bare number is
clamped, a non-positive bare number falls through to the star/fraction
patterns (which cannot match it) and yields null; blanks yield null. -/
def parseRatingStr (s : String) : Option ℚ :=
  if trimChars s.toList = [] then none
  else
    match parseDec (trimChars s.toList) with
    | some x =>
      if 0 < x then some (clamp15 x)
      else match starMatch (trimChars s.toList) with
        | some y => some y
        | none => fracMatch (trimChars s.toList)
    | none =>
      match starMatch (trimChars s.toList) with
      | some y => some y
      | none => fracMatch (trimChars s.toList)

/-- Rating parse lifted to a cell of the column after `astype("string")`
(missing cells parse to null). -/
def parseRatingVal : Value → Option ℚ
  | Value.null => none
  | v => parseRatingStr (pyStr v)

-- ---------- Statistics helpers (Series.mean / Series.median / mode) ----------

/-- Inserts into a sorted list of rationals. -/
def insSorted (x : ℚ) : List ℚ → List ℚ
  | [] => [x]
  | y :: ys => if x ≤ y then x :: y :: ys else y :: insSorted x ys

/-- Insertion sort for rationals. -/
def sortQ (l : List ℚ) : List ℚ := l.foldr insSorted []

/-- Mean over the non-missing entries, none when there are none
(`Series.mean` with skipna yields NaN on an all-missing column). -/
def meanQ (l : List ℚ) : Option ℚ :=
  if l.length = 0 then none else some (l.sum / (l.length : ℚ))

/-- Median with averaged middles on even counts, skipping missing
entries, as `Series.median` interpolates. -/
def medianQ (l : List ℚ) : Option ℚ :=
  let s := sortQ l
  let n := s.length
  if n = 0 then none
  else if n % 2 = 1 then some (s.getD (n / 2) 0)
  else some ((s.getD (n / 2 - 1) 0 + s.getD (n / 2) 0) / 2)

-- ---------- Ratings step (standardize_ratings_pd) ----------

/-- Impute setting of the ratings step: a numeric constant fills
directly; a string selects mean for "mean" and median otherwise
(mirroring the isinstance dispatch on `cfg.ratings.impute_strategy`). -/
inductive RatImpute
  | fixedVal (q : ℚ)
  | named (s : String)
deriving DecidableEq, Repr

/-- Embeds `standardize_ratings_pd`: parse every cell, fill the parse
failures with the impute value, and round the column.  The imputed count
re-reads the column when the fill value is itself missing, as the source
does. -/
def standardize_ratings (t : Table) (column : String) (dp : ℤ)
    (impute : RatImpute) : Table × StepReport :=
  if column ∈ t.cols then
    let s := t.col column
    let parsed := s.map parseRatingVal
    let changed := parsed.countP (fun x => x.isSome)
    let fillVal : Option ℚ :=
      match impute with
      | RatImpute.fixedVal q => some q
      | RatImpute.named n =>
        if n = "mean" then meanQ (parsed.filterMap id)
        else medianQ (parsed.filterMap id)
    let filled := parsed.map (fun p => match p with | some q => some q | none => fillVal)
    let newCol := filled.map (fun p =>
      match p with
      | some q => Value.num (roundTo dp q)
      | none => Value.null)
    let imputed :=
      match fillVal with
      | none => newCol.countP (fun v => v == Value.null)
      | some _ => s.countP (fun v => v == Value.null)
    (t.setCol column newCol,
     [("ratings_changed", RVal.n changed), ("ratings_imputed", RVal.n imputed)])
  else
    (t, [("ratings_changed", RVal.n 0), ("ratings_imputed", RVal.n 0)])

-- ---------- Outlier correction (correct_outliers_pd) ----------

/-- Acceptance test of one divisor for one still-flagged value: the
downscaled value must fall within `[median/10, median*10]` inclusive
(`Series.between`); a zero divisor yields inf/NaN in pandas, never
within a finite interval, so it never accepts. -/
def divOk (m v : ℚ) (d : ℤ) : Bool :=
  d ≠ 0 && decide (m / 10 ≤ v / (d : ℚ)) && decide (v / (d : ℚ) ≤ m * 10)

/-- Applies one divisor to one (value, flagged) cell: an accepting
still-flagged numeric cell is replaced by the quotient and un-flagged. -/
def outPass (m : ℚ) (d : ℤ) (cb : Option ℚ × Bool) : Option ℚ × Bool :=
  match cb with
  | (some q, true) => if divOk m q d then (some (q / (d : ℚ)), false) else (some q, true)
  | _ => cb

/-- Tests whether one cell accepts the divisor in the current round. -/
def outAccept (m : ℚ) (d : ℤ) (cb : Option ℚ × Bool) : Bool :=
  match cb with
  | (some q, true) => divOk m q d
  | _ => false

/-- Runs the divisor loop of `correct_outliers_pd` over the whole
column, accumulating the corrected count. -/
def outlierLoop (m : ℚ) : List ℤ → List (Option ℚ × Bool) → List (Option ℚ × Bool) × ℕ
  | [], cells => (cells, 0)
  | d :: ds, cells =>
    let cnt := cells.countP (outAccept m d)
    let p := outlierLoop m ds (cells.map (outPass m d))
    (p.1, cnt + p.2)

/-- First configured divisor whose quotient falls in range for a given
flagged value; describes which divisor wins for a row. -/
def firstDiv (m v : ℚ) : List ℤ → Option ℤ
  | [] => none
  | d :: ds => if divOk m v d then some d else firstDiv m v ds

/-- Per-cell closed form of the divisor loop: a flagged numeric value is
replaced by the quotient of its first accepting divisor and un-flagged;
everything else is untouched. -/
def cellFinal (m : ℚ) (ds : List ℤ) (cb : Option ℚ × Bool) : Option ℚ × Bool :=
  match cb with
  | (some q, true) =>
    match firstDiv m q ds with
    | some d => (some (q / (d : ℚ)), false)
    | none => (some q, true)
  | _ => cb

/-- Embeds `correct_outliers_pd`: numeric coercion, median, flagging of
values above `median * high_factor`, the divisor loop, and a final
whole-column rounding write-back. -/
def correct_outliers (t : Table) (column : Option String) (hf : ℚ)
    (cands : List ℤ) (dp : ℤ) : Table × StepReport :=
  match column with
  | none => (t, [("corrected", RVal.n 0), ("flagged", RVal.n 0)])
  | some c =>
    if c = "" ∨ c ∉ t.cols then
      (t, [("corrected", RVal.n 0), ("flagged", RVal.n 0)])
    else
      let ser := (t.col c).map toNumericVal
      let med := medianQ (ser.filterMap id)
      let flags := ser.map (fun v =>
        match med, v with
        | some m, some q => decide (m * hf < q)
        | _, _ => false)
      let p := outlierLoop med.iget cands (ser.zip flags)
      let newCol := p.1.map (fun cb =>
        match cb.1 with
        | some q => Value.num (roundTo dp q)
        | none => Value.null)
      (t.setCol c newCol,
       [("corrected", RVal.n p.2),
        ("flagged", RVal.n (p.1.countP (fun cb => cb.2))),
        ("median", RVal.mq med)])

-- ---------- Delivery SLA parsing (standardize_delivery_pd) ----------

/-- Separator characters of `_RANGE_RE`: the source's character class
holds a plain hyphen plus the three characters of a mojibake-encoded
en-dash literal. -/
def rangeSeps : List Char := ['-', 'â', '€', '“']

/-- Matches `^(\d+)\s*[-...]\s*(\d+)` and returns both bounds. -/
def rangeMatch (l : List Char) : Option (ℕ × ℕ) :=
  let p1 := takeDigits l
  if p1.1 = [] then none
  else
    match (p1.2.dropWhile Char.isWhitespace) with
    | c :: r3 =>
      if c ∈ rangeSeps then
        let p2 := takeDigits (r3.dropWhile Char.isWhitespace)
        match digitsToNat p1.1, digitsToNat p2.1 with
        | some a, some b => some (a, b)
        | _, _ => none
      else none
    | [] => none

/-- Matches `^(\d+)` and returns the leading integer. -/
def leadNum (l : List Char) : Option ℕ :=
  digitsToNat (takeDigits l).1

/-- String core of the delivery parser: "same day" is 0, a range
resolves to its upper bound, a leading integer is taken, everything
else is unparsable. -/
def delivParseStr (s : String) : Option ℤ :=
  if s = "same day" ∨ s = "sameday" then some 0
  else
    match rangeMatch s.toList with
    | some p => some (max (p.1 : ℤ) (p.2 : ℤ))
    | none =>
      match leadNum s.toList with
      | some n => some (n : ℤ)
      | none => none

/-- Embeds the inner `parse` of `standardize_delivery_pd` on a cell
(null included among the unparsable inputs). -/
def delivParse : Value → Option ℤ
  | Value.null => none
  | v => delivParseStr (lowerS (trimS (pyStr v)))

/-- Python equality of a parsed integer against a raw cell, as the
element-wise `parsed != df[column]` comparison sees it (`3 == 3.0`,
`1 == True`; a number never equals a string or a missing marker). -/
def pyNumEq (k : ℤ) : Value → Bool
  | Value.num q => decide ((k : ℚ) = q)
  | Value.bool b => decide (k = (if b then 1 else 0))
  | _ => false

/-- Inequality of a final delivery cell against the raw cell under the
pandas comparison of the parsed column with the raw column: a cell whose
parse failed is NaN (or None against NaN-flavoured raw missing values)
and compares unequal to everything, so it always counts. -/
def delivNe (p : Option ℤ) (raw : Value) : Bool :=
  match p with
  | none => true
  | some k => !(pyNumEq k raw)

/-- Nulls negative parses, mirroring `parsed.mask(parsed < 0)` (the
parser can in fact never produce a negative). -/
def maskNeg : Option ℤ → Option ℤ
  | some k => if k < 0 then none else some k
  | none => none

/-- Caps a parsed value at the configured maximum when clipping is on,
mirroring `parsed.clip(upper=max_days)`. -/
def clipTo (clips : Bool) (maxDays : ℤ) (p : Option ℤ) : Option ℤ :=
  if clips then p.map (fun k => min k maxDays) else p

/-- Closed form of one delivery cell: parse, null negatives, clip, and
render as a number (null on parse failure). -/
def delivCellOut (maxDays : ℤ) (clips : Bool) (v : Value) : Value :=
  match clipTo clips maxDays (maskNeg (delivParse v)) with
  | some k => Value.num (k : ℚ)
  | none => Value.null

/-- Embeds `standardize_delivery_pd`: parse, count nulls-or-negatives,
mask negatives (the parser never produces one), optionally clip to the
maximum, count changes, and write the column back. -/
def standardize_delivery (t : Table) (column : Option String)
    (maxDays : ℤ) (clipMax : Bool) : Table × StepReport :=
  match column with
  | none => (t, [("delivery_changed", RVal.n 0), ("delivery_nullified", RVal.n 0)])
  | some c =>
    if c = "" ∨ c ∉ t.cols then
      (t, [("delivery_changed", RVal.n 0), ("delivery_nullified", RVal.n 0)])
    else
      let raw := t.col c
      let parsed := raw.map delivParse
      let nullified := parsed.countP (fun p =>
        p.isNone || (match p with | some k => decide (k < 0) | none => false))
      let masked := parsed.map maskNeg
      let clipped := masked.map (clipTo clipMax maxDays)
      let changed := (clipped.zip raw).countP (fun p => delivNe p.1 p.2)
      let newCol := clipped.map (fun p =>
        match p with
        | some k => Value.num (k : ℚ)
        | none => Value.null)
      (t.setCol c newCol,
       [("delivery_changed", RVal.n changed), ("delivery_nullified", RVal.n nullified)])

-- ---------- Deduplication (deduplicate_pd) ----------

/-- Key tuple of a row over the existing key columns. -/
def keyOf (ks : List String) (r : Row) : List Value :=
  ks.map (fun k => r.getV k)

/-- Keeps the first row of every key tuple, dropping later duplicates
(`drop_duplicates(subset=keys, keep="first")`; pandas treats equal NaN
keys as duplicates, matching equality on `Value.null`). -/
def keepFirstRows (ks : List String) (seen : List (List Value)) : List Row → List Row
  | [] => []
  | r :: rs =>
    let k := keyOf ks r
    if k ∈ seen then keepFirstRows ks seen rs
    else r :: keepFirstRows ks (k :: seen) rs

/-- Group-wise quantity reduction of `agg("sum")`: numeric cells sum
with missing skipped; an all-string column concatenates.  A mixed
numeric/string quantity column makes pandas raise; it is modelled as
null and reached by no claim. -/
def sumQty (vs : List Value) : Value :=
  if vs.all (fun v => match v with | Value.null => true | Value.num _ => true | _ => false) then
    Value.num ((vs.filterMap (fun v => match v with | Value.num q => some q | _ => none)).sum)
  else if vs.all (fun v => match v with | Value.str _ => true | _ => false) then
    Value.str (String.join (vs.filterMap (fun v => match v with | Value.str s => some s | _ => none)))
  else Value.null

/-- First non-missing value of a column within a group, as
`agg("first")` computes it (GroupBy.first skips missing values); null
when the whole group is missing. -/
def firstNonNull (g : List Row) (c : String) : Value :=
  match (g.map (fun r => r.getV c)).find? (fun v => v != Value.null) with
  | some v => v
  | none => Value.null

/-- Builds the aggregated row of one group: key columns from the group
key (taken off the first row), the quantity column summed, every other
column reduced to its first non-missing value.  The source emits the
key columns first and the aggregated columns after; only the column set
matters to the claims, so the original column order is kept. -/
def aggGroup (cols existing : List String) (qn : String) (g : List Row) : Row :=
  cols.map (fun c =>
    (c, if c ∈ existing then (g.headD []).getV c
        else if c = qn then sumQty (g.map (fun r => r.getV c))
        else firstNonNull g c))

/-- Embeds `deduplicate_pd` with its three early returns, the aggregate
branch, and the keep-first branch. -/
def deduplicate (t : Table) (keys : List String) (qty : Option String)
    (strat : String) : Table × StepReport :=
  if keys = [] then
    (t, [("dropped", RVal.n 0), ("kept", RVal.n t.rows.length)])
  else
    let existing := keys.filter (fun k => k ∈ t.cols)
    let missing := keys.filter (fun k => k ∉ t.cols)
    if existing = [] then
      (t, [("dropped", RVal.n 0), ("kept", RVal.n t.rows.length),
           ("skipped_missing_keys", RVal.ss missing)])
    else if strat = "aggregate" ∧ truthyCol qty ∧ (qty.getD "") ∈ t.cols then
      let qn := qty.getD ""
      let uniq := dedupFirst [] (t.rows.map (keyOf existing))
      let outRows := uniq.map (fun k =>
        aggGroup t.cols existing qn (t.rows.filter (fun r => keyOf existing r == k)))
      ({ cols := t.cols, rows := outRows },
       [("dropped", RVal.n (t.rows.length - outRows.length)),
        ("kept", RVal.n outRows.length),
        ("aggregated", RVal.b true),
        ("missing_keys", RVal.ss missing)])
    else
      let kept := keepFirstRows existing [] t.rows
      ({ t with rows := kept },
       [("dropped", RVal.n (t.rows.length - kept.length)),
        ("kept", RVal.n kept.length),
        ("missing_keys", RVal.ss missing)])

-- ---------- Missing-value imputation (impute_missing_pd) ----------

/-- Detects a numeric column dtype: a column whose cells are all numbers
or missing is int64/float64; a column of pure booleans has bool dtype,
which pandas also counts as numeric.  Any other mix is an object column
(non-numeric). -/
def colNumeric (vs : List Value) : Bool :=
  vs.all (fun v => match v with | Value.null => true | Value.num _ => true | _ => false)
  || (!vs.isEmpty && vs.all (fun v => match v with | Value.bool _ => true | _ => false))

/-- Constructor rank used only to order values of differing kinds when a
tie-break must pick one (pandas would raise on such mixed columns; no
claim reaches that case). -/
def vRank : Value → ℕ
  | Value.null => 0
  | Value.num _ => 1
  | Value.str _ => 2
  | Value.bool _ => 3

/-- Strict ordering on values used for mode tie-breaks: numbers by
magnitude, strings lexicographically, false before true. -/
def valueLt (a b : Value) : Bool :=
  match a, b with
  | Value.num p, Value.num q => decide (p < q)
  | Value.str s, Value.str t => decide (s < t)
  | Value.bool x, Value.bool y => !x && y
  | _, _ => decide (vRank a < vRank b)

/-- Mode of a column, skipping missing values; ties resolve to the
smallest value because `Series.mode` returns its answers sorted and the
source takes `mode.iloc[0]`. -/
def modeVal (vs : List Value) : Option Value :=
  let nn := vs.filter (fun v => v != Value.null)
  match dedupFirst [] nn with
  | [] => none
  | c :: cs =>
    some (cs.foldl (fun best v =>
      if nn.count best < nn.count v then v
      else if nn.count v = nn.count best && valueLt v best then v
      else best) c)

/-- Central tendency of a numeric column per the configured strategy;
an unrecognized strategy falls back to median as the source's else
branch does. -/
def numFillVal (strategy : String) (vs : List Value) : Option ℚ :=
  if strategy = "mean" then meanQ (vs.filterMap toNumericVal)
  else medianQ (vs.filterMap toNumericVal)

/-- Configuration of the imputation step (`MissingConfig`); the source
field names are `include` / `exclude`. -/
structure MissingConfig where
  numeric_strategy : String
  categorical_strategy : String
  includeCols : List String
  excludeCols : List String
deriving DecidableEq, Repr

/-- Fills nulls of one column with a fixed value. -/
def fillColumn (t : Table) (c : String) (fv : Value) : Table :=
  t.setCol c ((t.col c).map (fun v => if v == Value.null then fv else v))

/-- Sequential fill of the numeric target columns (each with its own
mean/median computed over the original frame, all independent since
each fill touches only its own column). -/
def numFillLoop (strategy : String) :
    List String → Table → List (String × ℕ) → Table × List (String × ℕ)
  | [], t, rep => (t, rep)
  | c :: cs, t, rep =>
    let nulls := (t.col c).countP (fun v => v == Value.null)
    let t2 :=
      match numFillVal strategy (t.col c) with
      | some q => fillColumn t c (Value.num q)
      | none => t
    numFillLoop strategy cs t2 (rep ++ [(c, nulls)])

/-- Sequential mode-fill of the categorical target columns; a column
with no non-missing value is left out of the report and unchanged. -/
def catFillLoop : List String → Table → List (String × ℕ) → Table × List (String × ℕ)
  | [], t, rep => (t, rep)
  | c :: cs, t, rep =>
    match modeVal (t.col c) with
    | some m =>
      let nulls := (t.col c).countP (fun v => v == Value.null)
      catFillLoop cs (fillColumn t c m) (rep ++ [(c, nulls)])
    | none => catFillLoop cs t rep

/-- Embeds `impute_missing_pd`. -/
def impute_missing (t : Table) (cfg : MissingConfig) : Table × StepReport :=
  let inc := if cfg.includeCols = [] then t.cols else cfg.includeCols
  let cols := inc.filter (fun c => c ∈ t.cols && c ∉ cfg.excludeCols)
  if cols = [] then
    (t, [("numeric", RVal.fs []), ("categorical", RVal.fs [])])
  else
    let numCols := cols.filter (fun c => colNumeric (t.col c))
    let catCols := cols.filter (fun c => c ∉ numCols)
    let p1 := numFillLoop cfg.numeric_strategy numCols t []
    let p2 := catFillLoop catCols p1.1 []
    (p2.1, [("numeric", RVal.fs p1.2), ("categorical", RVal.fs p2.2)])

-- ---------- Categorical standardization (standardize_categories_pd) ----------

/-- Collapses every whitespace run to a single space (the substitution
of the `\s+` pattern by one space; no trimming happens here). -/
def collapseWs (s : String) : String :=
  String.mk ((s.toList.foldl (fun st c =>
    if c.isWhitespace then (if st.2 then st else (' ' :: st.1, true))
    else (c :: st.1, false)) (([] : List Char), false)).1.reverse)

/-- Last-wins association lookup, matching a Python dict built with
possibly repeated keys and queried with `get`. -/
def dictGet [BEq κ] (m : List (κ × α)) (k : κ) : Option α :=
  match m.reverse.find? (fun p => p.1 == k) with
  | some p => some p.2
  | none => none

/-- Inequality of a raw cell against the normalized string cell under
`(df[f] != s).fillna(False)`: a missing value on either side propagates
NA, filled to false; a string compares by content; a number or boolean
never equals a string. -/
def catNe (old : Value) (new : Option String) : Bool :=
  match old, new with
  | Value.null, _ => false
  | _, none => false
  | Value.str t, some s2 => t != s2
  | _, some _ => true

/-- Sequential normalization of the categorical fields, mirroring the
loop body of `standardize_categories_pd` (trim, lowercase, ampersand
substitution, whitespace collapse — each under its flag — then the
per-field remap). -/
def catFieldsLoop (lc stripF collapse ampersand : Bool)
    (mappings : List (String × List (String × String))) :
    List String → Table → List (String × ℕ) → Table × List (String × ℕ)
  | [], t, rep => (t, rep)
  | f :: fs, t, rep =>
    if f ∈ t.cols then
      let s0 := (t.col f).map pyStrOpt
      let s1 := if stripF then s0.map (Option.map trimS) else s0
      let s2 := if lc then s1.map (Option.map lowerS) else s1
      let s3 := if ampersand then s2.map (Option.map (fun x => replaceS x "&" "and")) else s2
      let s4 := if collapse then s3.map (Option.map collapseWs) else s3
      let fmap := (dictGet mappings f).getD []
      let s5 := s4.map (Option.map (fun x => (dictGet fmap x).getD x))
      let cnt := ((t.col f).zip s5).countP (fun p => catNe p.1 p.2)
      let newCol := s5.map (fun o =>
        match o with
        | some s => Value.str s
        | none => Value.null)
      catFieldsLoop lc stripF collapse ampersand mappings fs
        (t.setCol f newCol) (repSet rep f cnt)
    else
      catFieldsLoop lc stripF collapse ampersand mappings fs t rep

/-- Embeds `standardize_categories_pd`. -/
def standardize_categories (t : Table) (fields : List String)
    (lc stripF collapse ampersand : Bool)
    (mappings : List (String × List (String × String))) : Table × StepReport :=
  let p := catFieldsLoop lc stripF collapse ampersand mappings fields t
    (repInit fields t.cols)
  (p.1, [("categories_standardized", RVal.fs p.2)])

-- ---------- Boolean coercion (standardize_booleans_pd) ----------

/-- Embeds the inner `pb`: recognized trimmed lowercase forms map to the
booleans, native booleans pass through, anything else becomes null. -/
def parseBoolVal : Value → Value
  | Value.null => Value.null
  | Value.bool b => Value.bool b
  | v =>
    let s := lowerS (trimS (pyStr v))
    if s ∈ ["true", "t", "yes", "y", "1"] then Value.bool true
    else if s ∈ ["false", "f", "no", "n", "0"] then Value.bool false
    else Value.null

/-- Inequality of a coerced cell against the raw cell under the
object-column comparison `(new != df[f]).fillna(False)`.  The coerced
missing marker is Python None; comparing it against a raw None is
false.  Raw NaN missing markers would compare true against None, but no
claim depends on that flavour and the second-pass columns the claims
compare hold None markers. -/
def boolNe (new old : Value) : Bool :=
  match new, old with
  | Value.null, Value.null => false
  | Value.null, _ => true
  | Value.bool b, Value.bool c => b != c
  | Value.bool b, Value.num q => decide (((if b then 1 else 0) : ℚ) ≠ q)
  | Value.bool _, _ => true
  | _, _ => true

/-- Sequential coercion of the boolean fields. -/
def boolFieldsLoop : List String → Table → List (String × ℕ) → Table × List (String × ℕ)
  | [], t, rep => (t, rep)
  | f :: fs, t, rep =>
    if f ∈ t.cols then
      let newCol := (t.col f).map parseBoolVal
      let cnt := (newCol.zip (t.col f)).countP (fun p => boolNe p.1 p.2)
      boolFieldsLoop fs (t.setCol f newCol) (repSet rep f cnt)
    else
      boolFieldsLoop fs t rep

/-- Embeds `standardize_booleans_pd`. -/
def standardize_booleans (t : Table) (fields : List String) : Table × StepReport :=
  let p := boolFieldsLoop fields t (repInit fields t.cols)
  (p.1, [("booleans_standardized", RVal.fs p.2)])

-- ---------- Date standardization (standardize_dates_pd) ----------

/-- Month abbreviations for the %b directive (strptime matches them
case-insensitively). -/
def monthAbbrevs : List (String × ℕ) :=
  [("jan", 1), ("feb", 2), ("mar", 3), ("apr", 4), ("may", 5), ("jun", 6),
   ("jul", 7), ("aug", 8), ("sep", 9), ("oct", 10), ("nov", 11), ("dec", 12)]

/-- Full month names for the %B directive. -/
def monthFulls : List (String × ℕ) :=
  [("january", 1), ("february", 2), ("march", 3), ("april", 4), ("may", 5),
   ("june", 6), ("july", 7), ("august", 8), ("september", 9), ("october", 10),
   ("november", 11), ("december", 12)]

/-- Day count of a month (with leap years), used to reject impossible
dates the way `datetime` construction does. -/
def daysIn (y m : ℕ) : ℕ :=
  if m = 2 then (if y % 4 = 0 ∧ (y % 100 ≠ 0 ∨ y % 400 = 0) then 29 else 28)
  else if m ∈ [4, 6, 9, 11] then 30 else 31

/-- Validity of a (year, month, day) triple. -/
def validDate (d : ℕ × ℕ × ℕ) : Bool :=
  1 ≤ d.2.1 && d.2.1 ≤ 12 && 1 ≤ d.2.2 && d.2.2 ≤ daysIn d.1 d.2.1

/-- Consumes one or two leading digits as a field in `1..hi`, preferring
two digits, mirroring the strptime alternations for %m and %d. -/
def take12 (hi : ℕ) (l : List Char) : Option (ℕ × List Char) :=
  match l with
  | c1 :: c2 :: rest =>
    if c1.isDigit ∧ c2.isDigit then
      let two := (c1.toNat - 48) * 10 + (c2.toNat - 48)
      if 1 ≤ two ∧ two ≤ hi then some (two, rest)
      else if 1 ≤ c1.toNat - 48 then some (c1.toNat - 48, c2 :: rest)
      else none
    else if c1.isDigit ∧ 1 ≤ c1.toNat - 48 then some (c1.toNat - 48, c2 :: rest)
    else none
  | [c1] => if c1.isDigit ∧ 1 ≤ c1.toNat - 48 then some (c1.toNat - 48, []) else none
  | [] => none

/-- Consumes exactly `k` leading digits. -/
def takeExact (k : ℕ) (l : List Char) : Option (ℕ × List Char) :=
  let p := (l.take k, l.drop k)
  if p.1.length = k then (digitsToNat p.1).map (fun n => (n, p.2))
  else none

/-- Matches a month name from the given name table, case-insensitively,
returning the month and the rest of the input. -/
def takeMonthName (names : List (String × ℕ)) (l : List Char) : Option (ℕ × List Char) :=
  names.foldl (fun acc p =>
    match acc with
    | some r => some r
    | none =>
      let nm := p.1.toList
      if (l.take nm.length).map Char.toLower = nm then some (p.2, l.drop nm.length)
      else none) none

/-- Interprets a strftime/strptime format string as parse instructions
against an input, producing year/month/day fields.  Supported
directives: %Y %y %m %d %b %B; whitespace in the format matches a
whitespace run; other characters match literally (strptime is
case-insensitive on letters).  This covers every format in the default
`DatesConfig.input_formats` list. -/
def parseFmtAux : List Char → List Char → (Option ℕ × Option ℕ × Option ℕ) →
    Option (Option ℕ × Option ℕ × Option ℕ)
  | [], s, acc => if s = [] then some acc else none
  | '%' :: 'Y' :: f, s, (_, m, d) =>
    (takeExact 4 s).bind (fun p => parseFmtAux f p.2 (some p.1, m, d))
  | '%' :: 'y' :: f, s, (_, m, d) =>
    (takeExact 2 s).bind (fun p =>
      parseFmtAux f p.2 (some (if p.1 ≤ 68 then 2000 + p.1 else 1900 + p.1), m, d))
  | '%' :: 'm' :: f, s, (y, _, d) =>
    (take12 12 s).bind (fun p => parseFmtAux f p.2 (y, some p.1, d))
  | '%' :: 'd' :: f, s, (y, m, _) =>
    (take12 31 s).bind (fun p => parseFmtAux f p.2 (y, m, some p.1))
  | '%' :: 'b' :: f, s, (y, _, d) =>
    (takeMonthName monthAbbrevs s).bind (fun p => parseFmtAux f p.2 (y, some p.1, d))
  | '%' :: 'B' :: f, s, (y, _, d) =>
    (takeMonthName monthFulls s).bind (fun p => parseFmtAux f p.2 (y, some p.1, d))
  | c :: f, s, acc =>
    if c.isWhitespace then
      match s with
      | c2 :: _ =>
        if c2.isWhitespace then parseFmtAux f (s.dropWhile Char.isWhitespace) acc
        else none
      | [] => none
    else
      match s with
      | c2 :: s2 => if c2.toLower = c.toLower then parseFmtAux f s2 acc else none
      | [] => none

/-- Parses a string against an explicit format; missing fields default
as strptime does (year 1900, month and day 1); invalid dates fail. -/
def parseWithFmt (fmt : String) (s : String) : Option (ℕ × ℕ × ℕ) :=
  match parseFmtAux fmt.toList s.toList (none, none, none) with
  | some (y, m, d) =>
    let dt := (y.getD 1900, m.getD 1, d.getD 1)
    if validDate dt then some dt else none
  | none => none

/-- Models the format-free `pd.to_datetime(..., errors="coerce")` pass
as an ISO `YYYY-MM-DD` parse (with surrounding whitespace tolerated).
The real tolerant parser accepts more shapes; no claim depends on which
strings it accepts, only on the parse-rewrite-report plumbing around
it. -/
def pdToDatetime (s : String) : Option (ℕ × ℕ × ℕ) :=
  parseWithFmt "%Y-%m-%d" s.trim

/-- Renders a date in a target strftime format (same directives as the
parser; unknown directives emit their letter). -/
def fmtDate (fmt : String) (dt : ℕ × ℕ × ℕ) : String :=
  let rec go : List Char → List Char
    | [] => []
    | '%' :: 'Y' :: f => (padNat dt.1 4).toList ++ go f
    | '%' :: 'y' :: f => (padNat (dt.1 % 100) 2).toList ++ go f
    | '%' :: 'm' :: f => (padNat dt.2.1 2).toList ++ go f
    | '%' :: 'd' :: f => (padNat dt.2.2 2).toList ++ go f
    | '%' :: 'b' :: f =>
      (((monthAbbrevs.find? (fun p => p.2 == dt.2.1)).map
        (fun p => p.1.capitalize)).getD "").toList ++ go f
    | '%' :: 'B' :: f =>
      (((monthFulls.find? (fun p => p.2 == dt.2.1)).map
        (fun p => p.1.capitalize)).getD "").toList ++ go f
    | '%' :: c :: f => c :: go f
    | c :: f => c :: go f
  String.mk (go fmt.toList)

/-- Fallback chain of `standardize_dates_pd`: the tolerant pass first,
then each configured explicit format over the still-unparsed cells. -/
def dateParseChain (formats : List String) (cell : Option String) : Option (ℕ × ℕ × ℕ) :=
  let first := cell.bind pdToDatetime
  formats.foldl (fun acc fmt =>
    match acc with
    | some dt => some dt
    | none => cell.bind (parseWithFmt fmt)) first

/-- Sequential processing of the date fields. -/
def dateFieldsLoop (toNull : Bool) (target : String) (formats : List String) :
    List String → Table → List (String × ℕ) → Table × List (String × ℕ)
  | [], t, rep => (t, rep)
  | f :: fs, t, rep =>
    if f ∈ t.cols then
      let ser := (t.col f).map pyStrOpt
      let parsed := ser.map (dateParseChain formats)
      let cnt := (parsed.zip ser).countP (fun p =>
        p.1.isSome && (match p.2 with | some s => s.length > 0 | none => false))
      let newCol :=
        if toNull then
          parsed.map (fun p =>
            match p with
            | some dt => Value.str (fmtDate target dt)
            | none => Value.null)
        else
          (parsed.zip (t.col f)).map (fun p =>
            match p.1 with
            | some dt => Value.str (fmtDate target dt)
            | none => p.2)
      dateFieldsLoop toNull target formats fs (t.setCol f newCol) (repSet rep f cnt)
    else
      dateFieldsLoop toNull target formats fs t rep

/-- Embeds `standardize_dates_pd`. -/
def standardize_dates (t : Table) (fields : List String) (toNull : Bool)
    (target : String) (formats : List String) : Table × StepReport :=
  let p := dateFieldsLoop toNull target formats fields t (repInit fields t.cols)
  (p.1, [("dates_converted", RVal.fs p.2)])

-- ---------- Geographic resolution (resolve_cities_pd) ----------

/-- ASCII folding of a character, modelling NFKD decomposition followed
by the ascii/ignore encode: ASCII passes through, common accented Latin
letters lose their diacritic, anything else is dropped. -/
def asciiFold (c : Char) : List Char :=
  if c.toNat < 128 then [c]
  else
    let tbl : List (String × Char) :=
      [("àáâãäå", 'a'), ("èéêë", 'e'), ("ìíîï", 'i'), ("òóôõö", 'o'),
       ("ùúûü", 'u'), ("ñ", 'n'), ("ç", 'c'), ("ýÿ", 'y'),
       ("ÀÁÂÃÄÅ", 'A'), ("ÈÉÊË", 'E'), ("ÌÍÎÏ", 'I'), ("ÒÓÔÕÖ", 'O'),
       ("ÙÚÛÜ", 'U'), ("Ñ", 'N'), ("Ç", 'C'), ("Ý", 'Y')]
    match tbl.find? (fun p => c ∈ p.1.toList) with
    | some p => [p.2]
    | none => []

/-- Python str.title: an alphabetic character starting a run is
uppercased, the rest of the run lowercased. -/
def titleCase (s : String) : String :=
  String.mk ((s.toList.foldl (fun st c =>
    if c.isAlpha then ((if st.2 then c.toLower else c.toUpper) :: st.1, true)
    else (c :: st.1, false)) (([] : List Char), false)).1.reverse)

/-- Embeds `_normalize_city_name`: ASCII folding, whitespace collapse
via split/join, strip, title case. -/
def normCity (s : String) : String :=
  let folded := (s.toList.map asciiFold).flatten
  let words := ((splitCh Char.isWhitespace folded).filter (fun w => w ≠ [])).map String.mk
  titleCase (trimS (String.intercalate " " words))

/-- Length of the common head of two character lists. -/
def commonHeadLen : List Char → List Char → ℕ
  | a :: as_, b :: bs => if a == b then commonHeadLen as_ bs + 1 else 0
  | _, _ => 0

/-- Longest matching block between two character lists, earliest
position winning ties, as difflib's find_longest_match reports it
(junk and popularity heuristics do not apply to short city names). -/
def findLongest (a b : List Char) : ℕ × ℕ × ℕ :=
  (List.range (a.length)).foldl (fun best i =>
    (List.range (b.length)).foldl (fun best2 j =>
      let k := commonHeadLen (a.drop i) (b.drop j)
      if best2.2.2 < k then (i, j, k) else best2) best) (0, 0, 0)

/-- Total size of the difflib matching blocks: recursively take the
longest common block and recurse on both sides.  The fuel argument
bounds recursion depth and is always sufficient at `|a| + |b|`. -/
def matchTotal : ℕ → List Char → List Char → ℕ
  | 0, _, _ => 0
  | fuel + 1, a, b =>
    let p := findLongest a b
    let k := p.2.2
    if k = 0 then 0
    else
      k + matchTotal fuel (a.take p.1) (b.take p.2.1)
        + matchTotal fuel (a.drop (p.1 + k)) (b.drop (p.2.1 + k))

/-- SequenceMatcher similarity `2*M / (|a| + |b|)` (1 for two empty
strings), with seq1 the candidate and seq2 the queried word, as
get_close_matches arranges them. -/
def simScore (a b : List Char) : ℚ :=
  if a.length + b.length = 0 then 1
  else 2 * (matchTotal (a.length + b.length) a b : ℚ) / ((a.length + b.length : ℕ) : ℚ)

/-- Embeds `difflib.get_close_matches(word, keys, n=1, cutoff)`: keep
candidates scoring at least the cutoff and return the best, earliest
candidate winning ties (the quick-ratio pre-filters are upper bounds of
the score, so filtering on the score alone is equivalent). -/
def closeMatch (word : String) (keys : List String) (cutoff : ℚ) : Option String :=
  let scored := keys.filterMap (fun k =>
    let r := simScore k.toList word.toList
    if cutoff ≤ r then some (k, r) else none)
  match scored with
  | [] => none
  | x :: xs => some ((xs.foldl (fun bst p => if bst.2 < p.2 then p else bst) x).1)

/-- Resolves one city cell through the three tiers of the source's
`fix`: explicit mapping on the raw string, normalized lookup against
the normalized canonical dict, then fuzzy matching; returns the new
value and whether a tier resolved it. -/
def cityFix (pairs : List (String × String)) (keys : List String)
    (mappings : List (String × String)) (cutoff : ℚ) (v : Value) : Value × Bool :=
  match v with
  | Value.null => (v, false)
  | _ =>
    let raw := pyStr v
    match dictGet mappings raw with
    | some m => (Value.str m, true)
    | none =>
      let nrm := normCity raw
      match dictGet pairs nrm with
      | some c => (Value.str c, true)
      | none =>
        if keys ≠ [] then
          match closeMatch nrm keys cutoff with
          | some k => (Value.str ((dictGet pairs k).getD ""), true)
          | none => (v, false)
        else (v, false)

/-- Embeds `resolve_cities_pd`. -/
def resolve_cities (t : Table) (column : Option String) (canonical : List String)
    (mappings : List (String × String)) (cutoff : ℚ) : Table × StepReport :=
  match column with
  | none => (t, [("geo_resolved", RVal.n 0)])
  | some c =>
    if c = "" ∨ c ∉ t.cols then
      (t, [("geo_resolved", RVal.n 0)])
    else
      let pairs := canonical.map (fun x => (normCity x, x))
      let keys := dedupFirst [] (pairs.map (fun p => p.1))
      let res := (t.col c).map (cityFix pairs keys mappings cutoff)
      (t.setCol c (res.map (fun p => p.1)),
       [("geo_resolved", RVal.n (res.countP (fun p => p.2)))])

-- ---------- Payment canonicalization (normalize_payment_pd) ----------

/-- Substring containment (`needle in haystack` on Python strings). -/
def containsSub (needle : List Char) : List Char → Bool
  | [] => headMatch needle []
  | c :: hs => headMatch needle (c :: hs) || containsSub needle hs

/-- Substring containment on strings. -/
def strContains (hay needle : String) : Bool :=
  containsSub needle.toList hay.toList

/-- Embeds the inner `norm` of `normalize_payment_pd`: explicit remap on
the raw string first, then lowercased/underscore-folded substring
matching against the canonical labels in precedence order; unmatched
values return their raw string form. -/
def paymentNorm (extra : List (String × String)) (v : Value) : Value :=
  match v with
  | Value.null => Value.null
  | _ =>
    let raw := pyStr v
    match dictGet extra raw with
    | some m => Value.str m
    | none =>
      let t1 := replaceS (replaceS (replaceS (lowerS (trimS raw)) "_" " ")
        "c.o.d" "cod") "creditcard" "credit card"
      if ["upi", "phonepe", "google pay", "gpay", "googlepay"].any (fun x => strContains t1 x) then
        Value.str "UPI"
      else if ["cod", "cash on delivery", "cash-on-delivery"].any (fun x => strContains t1 x) then
        Value.str "Cash on Delivery"
      else if strContains t1 "debit" then Value.str "Debit Card"
      else if ["credit card", "cc"].any (fun x => strContains t1 x) then
        Value.str "Credit Card"
      else if strContains t1 "netbank" || strContains t1 "net bank" then
        Value.str "Net Banking"
      else if strContains t1 "wallet" then Value.str "Wallet"
      else Value.str raw

/-- Python inequality of two object cells under NaN-flavoured missing
markers (NaN compares unequal to everything, itself included), as the
payment step's `(new != df[column]).fillna(False)` sees them. -/
def pyNeVal (a b : Value) : Bool :=
  match a, b with
  | Value.null, _ => true
  | _, Value.null => true
  | Value.num p, Value.num q => p != q
  | Value.num p, Value.bool c => decide (p ≠ (if c then 1 else 0))
  | Value.bool c, Value.num p => decide (p ≠ (if c then 1 else 0))
  | Value.bool x, Value.bool y => x != y
  | Value.str s, Value.str u => s != u
  | _, _ => true

/-- Embeds `normalize_payment_pd`. -/
def normalize_payment (t : Table) (column : Option String)
    (extra : List (String × String)) : Table × StepReport :=
  match column with
  | none => (t, [("payment_standardized", RVal.n 0)])
  | some c =>
    if c = "" ∨ c ∉ t.cols then
      (t, [("payment_standardized", RVal.n 0)])
    else
      let new := (t.col c).map (paymentNorm extra)
      let changed := (new.zip (t.col c)).countP (fun p => pyNeVal p.1 p.2)
      (t.setCol c new, [("payment_standardized", RVal.n changed)])

-- ---------- Configuration model (config.py) ----------

/-- Date step configuration (`DatesConfig`). -/
structure DatesConfig where
  fields : List String
  target_format : String
  input_formats : List String
  invalid_to_null : Bool
deriving DecidableEq, Repr

/-- Categorical step configuration (`CategoricalConfig`). -/
structure CategoricalConfig where
  fields : List String
  lowercase : Bool
  stripWs : Bool
  collapse_spaces : Bool
  replace_ampersand : Bool
  mappings : List (String × List (String × String))
deriving DecidableEq, Repr

/-- Geo step configuration (`GeoConfig`). -/
structure GeoConfig where
  city_field : Option String
  canonical_cities : List String
  city_mappings : List (String × String)
  fuzzy_threshold : ℚ
deriving DecidableEq, Repr

/-- Ratings step configuration (`RatingsConfig`). -/
structure RatingsConfig where
  column : Option String
  decimal_places : ℤ
  impute_strategy : RatImpute
deriving DecidableEq, Repr

/-- Booleans step configuration (`BooleansConfig`). -/
structure BooleansConfig where
  fields : List String
deriving DecidableEq, Repr

/-- Delivery step configuration (`DeliveryConfig`). -/
structure DeliveryConfig where
  column : Option String
  max_days : ℤ
  clip_max : Bool
deriving DecidableEq, Repr

/-- Payment step configuration (`PaymentConfig`). -/
structure PaymentConfig where
  column : Option String
  extra_mappings : List (String × String)
deriving DecidableEq, Repr

/-- Dedup step configuration (`DedupConfig`). -/
structure DedupConfig where
  key_fields : List String
  quantity_field : Option String
  strategy : String
deriving DecidableEq, Repr

/-- Outlier step configuration (`OutliersConfig`). -/
structure OutliersConfig where
  column : Option String
  high_factor : ℚ
  downscale_candidates : List ℤ
  decimal_places : ℤ
deriving DecidableEq, Repr

/-- Full pipeline configuration (`PipelineConfig`). -/
structure PipelineConfig where
  missing : MissingConfig
  dates : DatesConfig
  price : PriceConfig
  categorical : CategoricalConfig
  geo : GeoConfig
  ratings : RatingsConfig
  booleans : BooleansConfig
  delivery : DeliveryConfig
  payment : PaymentConfig
  dedup : DedupConfig
  outliers : OutliersConfig
deriving DecidableEq, Repr

/-- Default configuration matching the dataclass defaults of config.py. -/
def defaultConfig : PipelineConfig :=
  { missing := { numeric_strategy := "median", categorical_strategy := "mode",
                 includeCols := [], excludeCols := [] }
    dates := { fields := [], target_format := "%Y-%m-%d",
               input_formats := ["%Y-%m-%d", "%d-%m-%Y", "%d/%m/%Y", "%m/%d/%Y",
                                 "%d-%b-%Y", "%d %b %Y", "%b %d, %Y",
                                 "%Y/%m/%d", "%d.%m.%Y"],
               invalid_to_null := false }
    price := { fields := [], allow_parentheses_negative := true,
               decimal_places := 2, coerce_invalid_to_null := false }
    categorical := { fields := [], lowercase := true, stripWs := true,
                     collapse_spaces := true, replace_ampersand := true, mappings := [] }
    geo := { city_field := none, canonical_cities := [], city_mappings := [],
             fuzzy_threshold := 85/100 }
    ratings := { column := none, decimal_places := 1,
                 impute_strategy := RatImpute.named "median" }
    booleans := { fields := [] }
    delivery := { column := none, max_days := 30, clip_max := true }
    payment := { column := none, extra_mappings := [] }
    dedup := { key_fields := [], quantity_field := none, strategy := "keep_first" }
    outliers := { column := none, high_factor := 50,
                  downscale_candidates := [10, 100], decimal_places := 2 } }

-- ---------- Orchestrator (run_cleaning_df) ----------

/-- Report fragment of an optional step. -/
def optRep (name : String) : Option (Table × StepReport) → List (String × StepReport)
  | some p => [(name, p.2)]
  | none => []

/-- Table output of an optional step, falling back to the input frame
when the step was skipped. -/
def optTab (t : Table) : Option (Table × StepReport) → Table
  | some p => p.1
  | none => t

/-- Embeds `run_cleaning_df`: the fixed step order with the source's
skip conditions — missing, dates, price and categorical/geo always run;
ratings, booleans, delivery, dedup, outliers and payment only run when
their column / fields / key configuration is truthy. -/
def run_cleaning (t : Table) (cfg : PipelineConfig) : Table × List (String × StepReport) :=
  let s1 := impute_missing t cfg.missing
  let s2 := standardize_dates s1.1 cfg.dates.fields cfg.dates.invalid_to_null
    cfg.dates.target_format cfg.dates.input_formats
  let s3 := standardize_prices s2.1 cfg.price.fields cfg.price.decimal_places
    cfg.price.coerce_invalid_to_null
  let s4 := if truthyCol cfg.ratings.column then
      some (standardize_ratings s3.1 (cfg.ratings.column.getD "")
        cfg.ratings.decimal_places cfg.ratings.impute_strategy)
    else none
  let t4 := optTab s3.1 s4
  let s5 := standardize_categories t4 cfg.categorical.fields cfg.categorical.lowercase
    cfg.categorical.stripWs cfg.categorical.collapse_spaces
    cfg.categorical.replace_ampersand cfg.categorical.mappings
  let s6 := resolve_cities s5.1 cfg.geo.city_field cfg.geo.canonical_cities
    cfg.geo.city_mappings cfg.geo.fuzzy_threshold
  let s7 := if cfg.booleans.fields ≠ [] then
      some (standardize_booleans s6.1 cfg.booleans.fields)
    else none
  let t7 := optTab s6.1 s7
  let s8 := if truthyCol cfg.delivery.column then
      some (standardize_delivery t7 cfg.delivery.column cfg.delivery.max_days
        cfg.delivery.clip_max)
    else none
  let t8 := optTab t7 s8
  let s9 := if cfg.dedup.key_fields ≠ [] then
      some (deduplicate t8 cfg.dedup.key_fields cfg.dedup.quantity_field
        cfg.dedup.strategy)
    else none
  let t9 := optTab t8 s9
  let s10 := if truthyCol cfg.outliers.column then
      some (correct_outliers t9 cfg.outliers.column cfg.outliers.high_factor
        cfg.outliers.downscale_candidates cfg.outliers.decimal_places)
    else none
  let t10 := optTab t9 s10
  let s11 := if truthyCol cfg.payment.column then
      some (normalize_payment t10 cfg.payment.column cfg.payment.extra_mappings)
    else none
  let t11 := optTab t10 s11
  (t11,
   [("missing", s1.2), ("dates", s2.2), ("price", s3.2)]
     ++ optRep "ratings" s4
     ++ [("categorical", s5.2), ("geo", s6.2)]
     ++ optRep "booleans" s7 ++ optRep "delivery" s8 ++ optRep "dedup" s9
     ++ optRep "outliers" s10 ++ optRep "payment" s11)

-- ---------- Closed forms used by the claim statements ----------

/-- Closed form of one price cell: a parsed value is rounded to the
configured decimals; a parse failure keeps the raw value unless
coercion nulls it. -/
def priceCellOut (dp : ℤ) (coerce : Bool) (v : Value) : Value :=
  match priceParseCell v with
  | some q => Value.num (roundTo dp q)
  | none => if coerce then Value.null else v

/-- Closed form of one outlier cell given the column median: the cell is
flagged when it exceeds `median * high_factor`, the first in-range
divisor corrects it, and the surviving numeric value is rounded (null
cells stay null). -/
def outCell (med : Option ℚ) (hf : ℚ) (cands : List ℤ) (dp : ℤ)
    (vv : Option ℚ) : Value :=
  let fl : Bool :=
    match med, vv with
    | some m, some q => decide (m * hf < q)
    | _, _ => false
  match (cellFinal med.iget cands (vv, fl)).1 with
  | some q => Value.num (roundTo dp q)
  | none => Value.null

/-- Concrete single-cell table exercising the idempotence question. -/
def cexTable : Table := Table.mk ["cat"] [[("cat", Value.str "a")]]

/-- Concrete configuration with one categorical remap whose target "B"
is itself altered by the lowercasing of a later pass. -/
def cexConfig : PipelineConfig :=
  { defaultConfig with
      categorical := { fields := ["cat"], lowercase := true, stripWs := true,
                       collapse_spaces := true, replace_ampersand := true,
                       mappings := [("cat", [("a", "B")])] } }

-- ---------------------------------------------------------------
-- Theorems
-- ---------------------------------------------------------------

/-- Finding the written key in the map branch of `Row.setV`. -/
theorem find_setV_map (r : Row) (c : String) (v : Value)
    (h : r.any (fun p => p.1 == c) = true) :
    ∃ k, ((r.map (fun p => if p.1 == c then (p.1, v) else p)).find?
      (fun p => p.1 == c)) = some (k, v) := by
  induction r with
  | nil => simp at h
  | cons p rs ih =>
    rw [List.map_cons]
    by_cases hp : (p.1 == c) = true
    · refine ⟨p.1, ?_⟩
      rw [if_pos hp]
      exact List.find?_cons_of_pos _ hp
    · rw [if_neg hp]
      obtain ⟨k, hk⟩ := ih (by simpa [List.any_cons, hp] using h)
      refine ⟨k, ?_⟩
      rw [List.find?_cons]
      rw [Bool.not_eq_true] at hp
      rw [hp]
      exact hk

/-- Reading back a written cell. -/
theorem getV_setV (r : Row) (c : String) (v : Value) :
    (r.setV c v).getV c = v := by
  by_cases h : r.any (fun p => p.1 == c) = true
  · obtain ⟨k, hk⟩ := find_setV_map r c v h
    unfold Row.setV
    rw [if_pos h]
    unfold Row.getV
    rw [hk]
  · have hn : r.find? (fun p => p.1 == c) = none := by
      rw [List.find?_eq_none]
      intro x hx
      simp only [Bool.not_eq_true]
      exact Bool.eq_false_iff.mpr (fun hc =>
        h (List.any_eq_true.mpr ⟨x, hx, hc⟩))
    have hfind : List.find? (fun p => p.1 == c) (r ++ [(c, v)]) = some (c, v) := by
      rw [List.find?_append, hn]
      simp
    unfold Row.setV
    rw [if_neg h]
    unfold Row.getV
    rw [hfind]

/-- Column update keeps the column list. -/
theorem cols_setCol (t : Table) (c : String) (vs : List Value) :
    (t.setCol c vs).cols = t.cols := rfl

/-- Column update keeps the row count when given one value per row. -/
theorem rowsLen_setCol (t : Table) (c : String) (vs : List Value)
    (h : vs.length = t.rows.length) :
    (t.setCol c vs).rows.length = t.rows.length := by
  simp [Table.setCol, List.length_zip, h]

/-- Zipping a mapped list against its source pairs images with
arguments. -/
theorem zip_map_self (f : α → β) (l : List α) :
    (l.map f).zip l = l.map (fun a => (f a, a)) := by
  induction l with
  | nil => rfl
  | cons a as ih => simp [ih]

/-- Reading back a written column. -/
theorem col_setCol (t : Table) (c : String) (vs : List Value)
    (h : vs.length = t.rows.length) :
    (t.setCol c vs).col c = vs := by
  have h2 : (t.setCol c vs).col c
      = (t.rows.zip vs).map (fun p => (p.1.setV c p.2).getV c) := by
    simp [Table.setCol, Table.col, List.map_map, Function.comp]
  rw [h2, List.map_congr_left (fun p _ => getV_setV p.1 c p.2)]
  exact List.map_snd_zip t.rows vs (le_of_eq h)

/-- C10: the price-normalization step reads only the fields, decimal
places and coercion flag of its configuration, so its output table and
report are identical for both values of allow_parentheses_negative. -/
theorem C10_price_flag_unused (t : Table) (cfg : PriceConfig) (b1 b2 : Bool) :
    priceStepCfg t { cfg with allow_parentheses_negative := b1 }
      = priceStepCfg t { cfg with allow_parentheses_negative := b2 } := rfl

/-- Column written by the price step over a single configured field. -/
theorem price_single_col (t : Table) (c : String) (dp : ℤ) (coerce : Bool)
    (h : c ∈ t.cols) :
    ((standardize_prices t [c] dp coerce).1).col c
      = (t.col c).map (priceCellOut dp coerce) := by
  have hzip : ((((t.col c).map priceParseCell).zip (t.col c)).map
      (fun p => match p.1 with
        | some q => Value.num (roundTo dp q)
        | none => if coerce then Value.null else p.2))
      = (t.col c).map (priceCellOut dp coerce) := by
    rw [zip_map_self, List.map_map]
    rfl
  have hlen : ((((t.col c).map priceParseCell).zip (t.col c)).map
      (fun p => match p.1 with
        | some q => Value.num (roundTo dp q)
        | none => if coerce then Value.null else p.2)).length
      = t.rows.length := by
    simp [Table.col, List.length_zip]
  simp only [standardize_prices, priceFieldsLoop, if_pos h]
  rw [col_setCol _ _ _ hlen]
  exact hzip

/-- C7: for a configured price field, non-currency characters are
stripped, thousands commas removed, a fully parenthesized value is
negated, the parsed number is rounded to the configured decimals;
"(1,234.50)" becomes -1234.50 and "₹999" becomes 999 at two decimals;
a parse failure keeps the raw value unless coercion is enabled, in
which case it becomes null. -/
theorem C7_price_normalization :
    (∀ (t : Table) (c : String) (dp : ℤ) (coerce : Bool), c ∈ t.cols →
      ((standardize_prices t [c] dp coerce).1).col c
        = (t.col c).map (priceCellOut dp coerce))
    ∧ priceCellOut 2 false (Value.str "(1,234.50)") = Value.num (-2469/2)
    ∧ priceCellOut 2 false (Value.str "₹999") = Value.num 999
    ∧ priceCellOut 2 false (Value.str "N/A") = Value.str "N/A"
    ∧ priceCellOut 2 true (Value.str "N/A") = Value.null
    ∧ (standardize_prices
        (Table.mk ["p"]
          [[("p", Value.str "(1,234.50)")], [("p", Value.str "₹999")],
           [("p", Value.str "N/A")]]) ["p"] 2 false).1.rows
      = [[("p", Value.num (-2469/2))], [("p", Value.num 999)],
         [("p", Value.str "N/A")]] :=
  ⟨price_single_col, by decide, by decide, by decide, by decide, by decide⟩

/-- Witness instantiating C7 on a concrete table. -/
theorem C7_price_normalization_wit :
    ((standardize_prices (Table.mk ["p"] [[("p", Value.str "₹999")]])
      ["p"] 2 false).1).col "p" = [Value.num 999] := by
  rw [C7_price_normalization.1 (Table.mk ["p"] [[("p", Value.str "₹999")]])
    "p" 2 false (by decide)]
  decide

/-- Bounds of the clamp onto the 1..5 scale. -/
theorem clamp15_bounds (y : ℚ) : 1 ≤ clamp15 y ∧ clamp15 y ≤ 5 :=
  ⟨le_max_left 1 _, max_le (by norm_num) (min_le_left 5 y)⟩

/-- Every star-form parse lands in the 1..5 range. -/
theorem starMatch_bounds {l : List Char} {x : ℚ} (h : starMatch l = some x) :
    1 ≤ x ∧ x ≤ 5 := by
  unfold starMatch at h
  cases h1 : numHead l with
  | none => rw [h1] at h; exact absurd h (by simp)
  | some p =>
    obtain ⟨a, rest⟩ := p
    rw [h1] at h
    simp only at h
    split at h
    · injection h with h2
      rw [← h2]
      exact clamp15_bounds a
    · exact absurd h (by simp)

/-- Every fraction-form parse lands in the 1..5 range. -/
theorem fracMatch_bounds {l : List Char} {x : ℚ} (h : fracMatch l = some x) :
    1 ≤ x ∧ x ≤ 5 := by
  unfold fracMatch at h
  cases h1 : numHead l with
  | none => rw [h1] at h; exact absurd h (by simp)
  | some p =>
    obtain ⟨a, rest⟩ := p
    rw [h1] at h
    simp only at h
    cases h2 : rest.dropWhile Char.isWhitespace with
    | nil => rw [h2] at h; exact absurd h (by simp)
    | cons c r2 =>
      rw [h2] at h
      simp only at h
      split at h
      · cases h3 : numHead (r2.dropWhile Char.isWhitespace) with
        | none => rw [h3] at h; exact absurd h (by simp)
        | some q =>
          obtain ⟨b, r3⟩ := q
          rw [h3] at h
          simp only at h
          split at h
          · split at h
            · injection h with h4
              rw [← h4]
              exact clamp15_bounds _
            · exact absurd h (by simp)
          · exact absurd h (by simp)
      · exact absurd h (by simp)

/-- Every successful rating parse lands in the 1..5 range. -/
theorem parseRating_bounds (s : String) (x : ℚ)
    (h : parseRatingStr s = some x) : 1 ≤ x ∧ x ≤ 5 := by
  unfold parseRatingStr at h
  split at h
  · exact absurd h (by simp)
  · cases h1 : parseDec (trimChars s.toList) with
    | some y =>
      rw [h1] at h
      simp only at h
      split at h
      · injection h with h2
        rw [← h2]
        exact clamp15_bounds y
      · cases h2 : starMatch (trimChars s.toList) with
        | some z =>
          rw [h2] at h
          injection h with h3
          rw [← h3]
          exact starMatch_bounds h2
        | none =>
          rw [h2] at h
          simp only at h
          exact fracMatch_bounds h
    | none =>
      rw [h1] at h
      simp only at h
      cases h2 : starMatch (trimChars s.toList) with
      | some z =>
        rw [h2] at h
        injection h with h3
        rw [← h3]
        exact starMatch_bounds h2
      | none =>
        rw [h2] at h
        simp only at h
        exact fracMatch_bounds h

/-- C6 counterexample: the rating parser does not clamp every bare
number into [1, 5] — the bare number "0" parses to null, not to the
clamped value 1. -/
theorem C6_rating_clamp_cex :
    parseRatingStr "0" = none ∧ parseRatingStr "0" ≠ some (clamp15 0) := by
  constructor
  · decide
  · decide

/-- C6 amended: the three accepted forms map onto the 1..5 scale with
clamping ("4 stars" gives 4, "3/5" gives 3, "7" clamps to 5), every
parsed value lies in [1, 5], and blank or unparsable values — which
include non-positive bare numbers such as "0" and "-2" — become null. -/
theorem C6_rating_parse :
    parseRatingStr "4 stars" = some 4
    ∧ parseRatingStr "3/5" = some 3
    ∧ parseRatingStr "7" = some 5
    ∧ parseRatingStr "" = none
    ∧ parseRatingStr "  " = none
    ∧ parseRatingStr "great" = none
    ∧ parseRatingStr "0" = none
    ∧ parseRatingStr "-2" = none
    ∧ parseRatingVal Value.null = none
    ∧ (∀ (s : String) (x : ℚ), parseRatingStr s = some x → 1 ≤ x ∧ x ≤ 5) :=
  ⟨by decide, by decide, by decide, by decide, by decide, by decide,
   by decide, by decide, rfl, parseRating_bounds⟩

/-- Witness instantiating the bound clause of C6 on "4 stars". -/
theorem C6_rating_parse_wit :
    parseRatingStr "4 stars" = some 4 ∧ (1 : ℚ) ≤ 4 ∧ (4 : ℚ) ≤ 5 :=
  ⟨C6_rating_parse.1,
   C6_rating_parse.2.2.2.2.2.2.2.2.2 "4 stars" 4 C6_rating_parse.1⟩

/-- Zipping a list against its own image pairs arguments with images. -/
theorem zip_map_self2 (f : α → β) (l : List α) :
    l.zip (l.map f) = l.map (fun a => (a, f a)) := by
  induction l with
  | nil => rfl
  | cons a as ih => simp [ih]

/-- An empty divisor list leaves every cell unchanged. -/
theorem cellFinal_nil (m : ℚ) (cb : Option ℚ × Bool) :
    cellFinal m [] cb = cb := by
  obtain ⟨v, fl⟩ := cb
  cases v <;> cases fl <;> rfl

/-- One divisor pass followed by the closed form of the remaining
divisors equals the closed form of the whole list. -/
theorem cellFinal_outPass (m : ℚ) (d : ℤ) (ds : List ℤ) (cb : Option ℚ × Bool) :
    cellFinal m ds (outPass m d cb) = cellFinal m (d :: ds) cb := by
  obtain ⟨v, fl⟩ := cb
  cases v with
  | none => cases fl <;> rfl
  | some q =>
    cases fl with
    | false => rfl
    | true =>
      by_cases hd : divOk m q d = true
      · simp [outPass, cellFinal, firstDiv, hd]
      · simp [outPass, cellFinal, firstDiv, hd]

/-- The divisor loop computes the per-cell closed form. -/
theorem outlierLoop_fst (m : ℚ) (ds : List ℤ) (cells : List (Option ℚ × Bool)) :
    (outlierLoop m ds cells).1 = cells.map (cellFinal m ds) := by
  induction ds generalizing cells with
  | nil =>
    simp only [outlierLoop]
    have h1 : cells.map (cellFinal m []) = cells.map id :=
      List.map_congr_left (fun cb _ => cellFinal_nil m cb)
    rw [h1, List.map_id]
  | cons d ds ih =>
    simp only [outlierLoop, ih, List.map_map]
    exact List.map_congr_left (fun cb _ => cellFinal_outPass m d ds cb)

/-- Column written by the outlier step, as the per-cell closed form over
the numeric coercion of the original column. -/
theorem correct_outliers_col (t : Table) (c : String) (hf : ℚ)
    (cands : List ℤ) (dp : ℤ) (hne : ¬(c = "" ∨ c ∉ t.cols)) :
    (correct_outliers t (some c) hf cands dp).1.col c
      = (t.col c).map (fun w =>
          outCell (medianQ (((t.col c).map toNumericVal).filterMap id))
            hf cands dp (toNumericVal w)) := by
  simp only [correct_outliers, if_neg hne]
  rw [col_setCol]
  · rw [outlierLoop_fst, zip_map_self2, List.map_map, List.map_map, List.map_map]
    rfl
  · simp [outlierLoop_fst, Table.col, List.length_zip]

/-- A flagged value whose first accepting divisor is `d` is corrected to
the rounded quotient and un-flagged. -/
theorem outCell_first (m hf v : ℚ) (cands : List ℤ) (dp : ℤ) (d : ℤ)
    (hflag : m * hf < v) (hd : firstDiv m v cands = some d) :
    outCell (some m) hf cands dp (some v) = Value.num (roundTo dp (v / (d : ℚ)))
    ∧ cellFinal m cands (some v, true) = (some (v / (d : ℚ)), false) := by
  have hcf : cellFinal m cands (some v, true) = (some (v / (d : ℚ)), false) := by
    simp [cellFinal, hd]
  refine ⟨?_, hcf⟩
  simp [outCell, Option.iget, hflag, hcf]

/-- C4: for every flagged numeric cell the divisors are tried in order
and the first divisor whose quotient lands in [median/10, median*10]
wins — the cell is un-flagged and replaced by the rounded quotient; in
a column with median 100, high factor 50 and configured divisor list
[100], the value 6000 is flagged and corrected to 60.00 by dividing by
100. -/
theorem C4_outlier_first_divisor :
    (∀ (t : Table) (c : String) (hf : ℚ) (cands : List ℤ) (dp : ℤ),
      ¬(c = "" ∨ c ∉ t.cols) →
      (correct_outliers t (some c) hf cands dp).1.col c
        = (t.col c).map (fun w =>
            outCell (medianQ (((t.col c).map toNumericVal).filterMap id))
              hf cands dp (toNumericVal w)))
    ∧ (∀ (m hf v : ℚ) (cands : List ℤ) (dp : ℤ) (d : ℤ),
        m * hf < v → firstDiv m v cands = some d →
        outCell (some m) hf cands dp (some v)
          = Value.num (roundTo dp (v / (d : ℚ)))
        ∧ cellFinal m cands (some v, true) = (some (v / (d : ℚ)), false))
    ∧ correct_outliers
        (Table.mk ["p"] [[("p", Value.num 100)], [("p", Value.num 100)],
          [("p", Value.num 6000)]]) (some "p") 50 [100] 2
      = (Table.mk ["p"] [[("p", Value.num 100)], [("p", Value.num 100)],
          [("p", Value.num 60)]],
         [("corrected", RVal.n 1), ("flagged", RVal.n 0),
          ("median", RVal.mq (some 100))]) :=
  ⟨correct_outliers_col, outCell_first, by decide⟩

/-- Witness instantiating C4 on the median-100 example. -/
theorem C4_outlier_first_divisor_wit :
    outCell (some 100) 50 [100] 2 (some 6000)
      = Value.num (roundTo 2 ((6000 : ℚ) / ((100 : ℤ) : ℚ)))
    ∧ cellFinal 100 [100] (some 6000, true)
      = (some ((6000 : ℚ) / ((100 : ℤ) : ℚ)), false) :=
  C4_outlier_first_divisor.2.1 100 50 6000 [100] 2 100 (by norm_num) (by decide)

/-- A flagged value with no accepting divisor, as well as an unflagged
value, keeps its magnitude (up to the final rounding). -/
theorem outCell_uncorrected (med : Option ℚ) (hf : ℚ) (cands : List ℤ)
    (dp : ℤ) (v : ℚ)
    (H : ∀ m, med = some m → m * hf < v → firstDiv m v cands = none) :
    outCell med hf cands dp (some v) = Value.num (roundTo dp v) := by
  cases med with
  | none =>
    simp [outCell, Option.iget, cellFinal]
  | some m =>
    by_cases hfl : m * hf < v
    · have hnone := H m rfl hfl
      simp [outCell, Option.iget, hfl, cellFinal, hnone]
    · simp [outCell, Option.iget, hfl, cellFinal]

/-- C5 counterexample: with median 1.239 nothing is flagged and nothing
is corrected, yet the middle cell does not keep exactly its original
value — the whole column is rounded to the configured decimals, turning
1.239 into 1.24. -/
theorem C5_outlier_frame_cex :
    (correct_outliers
      (Table.mk ["p"] [[("p", Value.num 1)], [("p", Value.num (1239/1000))],
        [("p", Value.num 2)]]) (some "p") 50 [10, 100] 2).2
      = [("corrected", RVal.n 0), ("flagged", RVal.n 0),
         ("median", RVal.mq (some (1239/1000)))]
    ∧ ((correct_outliers
        (Table.mk ["p"] [[("p", Value.num 1)], [("p", Value.num (1239/1000))],
          [("p", Value.num 2)]]) (some "p") 50 [10, 100] 2).1.col "p").getD 1
        Value.null = Value.num (31/25)
    ∧ Value.num (31/25) ≠ Value.num (1239/1000) := by
  refine ⟨by decide, by decide, by decide⟩

/-- C5 amended: a row never accepted by a divisor keeps its numeric
magnitude but not necessarily its exact value — the written column is
the numeric coercion of the original, with never-corrected values
rounded to the configured decimals (null for non-numeric cells) and
only divisor-accepted values replaced. -/
theorem C5_outlier_frame :
    (∀ (med : Option ℚ) (hf : ℚ) (cands : List ℤ) (dp : ℤ) (v : ℚ),
      (∀ m, med = some m → m * hf < v → firstDiv m v cands = none) →
      outCell med hf cands dp (some v) = Value.num (roundTo dp v))
    ∧ (∀ (med : Option ℚ) (hf : ℚ) (cands : List ℤ) (dp : ℤ),
        outCell med hf cands dp none = Value.null)
    ∧ (∀ (t : Table) (c : String) (hf : ℚ) (cands : List ℤ) (dp : ℤ),
        ¬(c = "" ∨ c ∉ t.cols) →
        (correct_outliers t (some c) hf cands dp).1.col c
          = (t.col c).map (fun w =>
              outCell (medianQ (((t.col c).map toNumericVal).filterMap id))
                hf cands dp (toNumericVal w))) :=
  ⟨outCell_uncorrected,
   fun med hf cands dp => by
     cases med <;> simp [outCell, Option.iget, cellFinal],
   correct_outliers_col⟩

/-- Witness instantiating C5 on the rounded 1.239 cell. -/
theorem C5_outlier_frame_wit :
    outCell (some (1239/1000)) 50 [10, 100] 2 (some (1239/1000))
      = Value.num (roundTo 2 (1239/1000))
    ∧ outCell (some (1239/1000)) 50 [10, 100] 2 none = Value.null :=
  ⟨C5_outlier_frame.1 (some (1239/1000)) 50 [10, 100] 2 (1239/1000)
    (fun m hm hlt => by
      cases hm
      exact absurd hlt (by decide)),
   C5_outlier_frame.2.1 (some (1239/1000)) 50 [10, 100] 2⟩

/-- The delivery parser only produces non-negative day counts (phrases
map to 0, ranges and bare numbers to naturals). -/
theorem delivParseStr_nonneg (s : String) (k : ℤ)
    (h : delivParseStr s = some k) : 0 ≤ k := by
  unfold delivParseStr at h
  split at h
  · injection h with h1
    rw [← h1]
  · cases h1 : rangeMatch s.toList with
    | some p =>
      rw [h1] at h
      injection h with h2
      rw [← h2]
      exact le_trans (Int.natCast_nonneg p.1) (le_max_left _ _)
    | none =>
      rw [h1] at h
      simp only at h
      cases h2 : leadNum s.toList with
      | some n =>
        rw [h2] at h
        injection h with h3
        rw [← h3]
        exact Int.natCast_nonneg n
      | none => rw [h2] at h; exact absurd h (by simp)

/-- Cell-level non-negativity of the delivery parse. -/
theorem delivParse_nonneg (v : Value) (k : ℤ)
    (h : delivParse v = some k) : 0 ≤ k := by
  cases v with
  | null => exact absurd h (by simp [delivParse])
  | num q => exact delivParseStr_nonneg _ k h
  | str s => exact delivParseStr_nonneg _ k h
  | bool b => exact delivParseStr_nonneg _ k h

/-- Boolean cells never parse as delivery days ("true"/"false" carry no
leading digits). -/
theorem delivParse_bool (b : Bool) : delivParse (Value.bool b) = none := by
  cases b <;> decide

/-- For a non-null raw cell, the pandas inequality of the processed
parse against the raw cell coincides with plain value inequality of the
final written cell against the raw cell. -/
theorem delivNe_closed (maxDays : ℤ) (clips : Bool) (v : Value)
    (hv : v ≠ Value.null) :
    delivNe (clipTo clips maxDays (maskNeg (delivParse v))) v
      = decide (delivCellOut maxDays clips v ≠ v) := by
  cases hp : delivParse v with
  | none =>
    have hc : clipTo clips maxDays (maskNeg none) = none := by
      cases clips <;> rfl
    have hout : delivCellOut maxDays clips v = Value.null := by
      unfold delivCellOut
      rw [hp, hc]
    rw [hc, hout]
    simp [delivNe, Ne.symm hv]
  | some k =>
    have hk : 0 ≤ k := delivParse_nonneg v k hp
    have hm : maskNeg (some k) = some k := by
      simp [maskNeg, not_lt.mpr hk]
    have hc : ∃ k2 : ℤ, clipTo clips maxDays (some k) = some k2 := by
      cases clips with
      | false => exact ⟨k, rfl⟩
      | true => exact ⟨min k maxDays, rfl⟩
    obtain ⟨k2, hk2⟩ := hc
    have hout : delivCellOut maxDays clips v = Value.num (k2 : ℚ) := by
      unfold delivCellOut
      rw [hp, hm, hk2]
    rw [hm, hk2, hout]
    cases v with
    | null => exact absurd rfl hv
    | num q =>
      by_cases he : (k2 : ℚ) = q
      · simp [delivNe, pyNumEq, he]
      · simp [delivNe, pyNumEq, he]
    | str s => simp [delivNe, pyNumEq]
    | bool b => exact absurd hp (by rw [delivParse_bool b]; simp)

/-- C9 counterexample: on the delivery column [null, "3"] the reported
changed count is 2, but only one cell's final value differs from its
raw input (the null cell stays null, yet NaN-against-NaN comparison
counts it as changed). -/
theorem C9_delivery_report_cex :
    (standardize_delivery
      (Table.mk ["d"] [[("d", Value.null)], [("d", Value.str "3")]])
      (some "d") 30 true).2
      = [("delivery_changed", RVal.n 2), ("delivery_nullified", RVal.n 1)]
    ∧ (((standardize_delivery
        (Table.mk ["d"] [[("d", Value.null)], [("d", Value.str "3")]])
        (some "d") 30 true).1.col "d").zip
        ((Table.mk ["d"] [[("d", Value.null)], [("d", Value.str "3")]]).col "d")).countP
        (fun p => p.1 ≠ p.2) = 1 := by
  refine ⟨by decide, by decide⟩

/-- C9 amended: on a delivery column without nulls the report is as the
claim states — the changed count is the number of cells whose final
value differs from the raw input and the nulled count is the number of
unparsable cells (negative parses cannot occur).  Null cells inflate
the changed count, since the parsed column compares NaN-style. -/
theorem C9_delivery_report (t : Table) (c : String) (maxDays : ℤ)
    (clips : Bool) (hne : ¬(c = "" ∨ c ∉ t.cols))
    (hnn : ∀ v ∈ t.col c, v ≠ Value.null) :
    (standardize_delivery t (some c) maxDays clips).2
      = [("delivery_changed",
          RVal.n ((t.col c).countP
            (fun v => decide (delivCellOut maxDays clips v ≠ v)))),
         ("delivery_nullified",
          RVal.n ((t.col c).countP (fun v => (delivParse v).isNone)))]
    ∧ (standardize_delivery t (some c) maxDays clips).1.col c
      = (t.col c).map (delivCellOut maxDays clips) := by
  have hch : List.countP (fun p => delivNe p.1 p.2)
      ((List.map (clipTo clips maxDays) (List.map maskNeg
        (List.map delivParse (t.col c)))).zip (t.col c))
      = List.countP (fun v => decide (delivCellOut maxDays clips v ≠ v)) (t.col c) := by
    rw [List.map_map, List.map_map, zip_map_self, List.countP_map]
    refine List.countP_congr (fun v hv => ?_)
    have h := delivNe_closed maxDays clips v (hnn v hv)
    simp only [Function.comp]
    rw [h]
  have hnu : List.countP (fun p =>
        p.isNone || match p with | some k => decide (k < 0) | none => false)
      (List.map delivParse (t.col c))
      = List.countP (fun v => (delivParse v).isNone) (t.col c) := by
    rw [List.countP_map]
    refine List.countP_congr (fun v _ => ?_)
    cases hp : delivParse v with
    | none => simp [Function.comp, hp]
    | some k => simp [Function.comp, hp, not_lt.mpr (delivParse_nonneg v k hp)]
  constructor
  · simp only [standardize_delivery, if_neg hne]
    rw [hch, hnu]
  · simp only [standardize_delivery, if_neg hne]
    rw [col_setCol]
    · rw [List.map_map, List.map_map, List.map_map]
      rfl
    · simp [Table.col]

/-- Witness instantiating C9 on a null-free delivery column. -/
theorem C9_delivery_report_wit :
    (standardize_delivery
      (Table.mk ["d"] [[("d", Value.str "3-5 days")], [("d", Value.str "45")],
        [("d", Value.str "soon")]]) (some "d") 30 true).2
      = [("delivery_changed",
          RVal.n (((Table.mk ["d"] [[("d", Value.str "3-5 days")],
            [("d", Value.str "45")], [("d", Value.str "soon")]]).col "d").countP
            (fun v => decide (delivCellOut 30 true v ≠ v)))),
         ("delivery_nullified",
          RVal.n (((Table.mk ["d"] [[("d", Value.str "3-5 days")],
            [("d", Value.str "45")], [("d", Value.str "soon")]]).col "d").countP
            (fun v => (delivParse v).isNone)))]
    ∧ (standardize_delivery
        (Table.mk ["d"] [[("d", Value.str "3-5 days")], [("d", Value.str "45")],
          [("d", Value.str "soon")]]) (some "d") 30 true).1.col "d"
      = ((Table.mk ["d"] [[("d", Value.str "3-5 days")], [("d", Value.str "45")],
          [("d", Value.str "soon")]]).col "d").map (delivCellOut 30 true) :=
  C9_delivery_report
    (Table.mk ["d"] [[("d", Value.str "3-5 days")], [("d", Value.str "45")],
      [("d", Value.str "soon")]]) "d" 30 true (by decide) (by decide)

/-- Reading one column of the aggregated row of a group: key columns
come from the group's first row, the quantity column is the group sum,
every other column is the group's first non-missing value. -/
theorem aggGroup_getV (cols existing : List String) (qn c : String)
    (g : List Row) (hc : c ∈ cols) :
    (aggGroup cols existing qn g).getV c
      = if c ∈ existing then (g.headD []).getV c
        else if c = qn then sumQty (g.map (fun r => r.getV c))
        else firstNonNull g c := by
  induction cols with
  | nil => cases hc
  | cons c0 rest ih =>
    by_cases h0 : (c0 == c) = true
    · have hce : c0 = c := eq_of_beq h0
      subst hce
      unfold aggGroup Row.getV
      rw [List.map_cons]
      simp only [List.find?_cons, h0]
    · have hmem : c ∈ rest := by
        cases hc with
        | head => exact absurd (by simp) h0
        | tail _ h => exact h
      unfold aggGroup Row.getV
      rw [List.map_cons]
      rw [Bool.not_eq_true] at h0
      simp only [List.find?_cons, h0]
      exact ih hmem

/-- C8 counterexample: under aggregate dedup a non-key column takes the
first non-missing value of the group, not the first row's value — a
group whose first row holds null in column "a" and whose second row
holds "A" aggregates to "A". -/
theorem C8_dedup_agg_cex :
    ((deduplicate
      (Table.mk ["k", "a", "q"]
        [[("k", Value.num 1), ("a", Value.null), ("q", Value.num 2)],
         [("k", Value.num 1), ("a", Value.str "A"), ("q", Value.num 3)]])
      ["k"] (some "q") "aggregate").1.rows.getD 0 []).getV "a" = Value.str "A"
    ∧ ((Table.mk ["k", "a", "q"]
        [[("k", Value.num 1), ("a", Value.null), ("q", Value.num 2)],
         [("k", Value.num 1), ("a", Value.str "A"), ("q", Value.num 3)]]).rows.getD
          0 []).getV "a" = Value.null
    ∧ Value.str "A" ≠ Value.null := by
  refine ⟨by decide, by decide, by decide⟩

/-- C8 amended: aggregate dedup groups rows by the key tuple, sums the
quantity column per group, and takes every other column's first
non-missing value (null when the group is all missing); with an absent
quantity column aggregate behaves exactly like keep_first; two rows
sharing key (order_id 5, product_id "X") with quantities 2 and 3
collapse to one row with quantity 5 and the other fields from the first
occurrence. -/
theorem C8_dedup_aggregate :
    (∀ (cols existing : List String) (qn c : String) (g : List Row),
      c ∈ cols →
      (aggGroup cols existing qn g).getV c
        = if c ∈ existing then (g.headD []).getV c
          else if c = qn then sumQty (g.map (fun r => r.getV c))
          else firstNonNull g c)
    ∧ (∀ (t : Table) (keys : List String) (qn : String), qn ∉ t.cols →
        deduplicate t keys (some qn) "aggregate"
          = deduplicate t keys (some qn) "keep_first")
    ∧ (∀ (t : Table) (keys : List String) (qn : String),
        keys ≠ [] → keys.filter (fun k => k ∈ t.cols) ≠ [] →
        qn ≠ "" → qn ∈ t.cols →
        (deduplicate t keys (some qn) "aggregate").1.rows
          = (dedupFirst [] (t.rows.map (keyOf (keys.filter (fun k => k ∈ t.cols))))).map
              (fun k => aggGroup t.cols (keys.filter (fun k => k ∈ t.cols)) qn
                (t.rows.filter (fun r => keyOf (keys.filter (fun k => k ∈ t.cols)) r == k))))
    ∧ deduplicate
        (Table.mk ["order_id", "product_id", "qty", "note"]
          [[("order_id", Value.num 5), ("product_id", Value.str "X"),
            ("qty", Value.num 2), ("note", Value.str "P")],
           [("order_id", Value.num 5), ("product_id", Value.str "X"),
            ("qty", Value.num 3), ("note", Value.str "Q")]])
        ["order_id", "product_id"] (some "qty") "aggregate"
      = (Table.mk ["order_id", "product_id", "qty", "note"]
          [[("order_id", Value.num 5), ("product_id", Value.str "X"),
            ("qty", Value.num 5), ("note", Value.str "P")]],
         [("dropped", RVal.n 1), ("kept", RVal.n 1), ("aggregated", RVal.b true),
          ("missing_keys", RVal.ss [])]) := by
  refine ⟨aggGroup_getV, ?_, ?_, by decide⟩
  · intro t keys qn hq
    unfold deduplicate
    by_cases h1 : keys = []
    · simp [h1]
    · simp only [if_neg h1]
      by_cases h2 : keys.filter (fun k => k ∈ t.cols) = []
      · simp [h2]
      · have hcond : ¬(True ∧ truthyCol (some qn) = true
            ∧ (some qn).getD "" ∈ t.cols) := fun h => hq h.2.2
        have hkf : ¬("keep_first" = "aggregate" ∧ truthyCol (some qn) = true
            ∧ (some qn).getD "" ∈ t.cols) := fun h => absurd h.1 (by decide)
        simp only [if_neg h2]
        rw [if_neg hcond, if_neg hkf]
  · intro t keys qn h1 h2 h3 h4
    have hcond : (True ∧ truthyCol (some qn) = true
        ∧ (some qn).getD "" ∈ t.cols) :=
      ⟨trivial, by simp [truthyCol, h3], h4⟩
    unfold deduplicate
    simp only [if_neg h1, if_neg h2]
    rw [if_pos hcond]
    rfl

/-- Witness instantiating C8 on concrete groups and tables. -/
theorem C8_dedup_aggregate_wit :
    (aggGroup ["k", "q"] ["k"] "q"
      [[("k", Value.num 1), ("q", Value.num 2)],
       [("k", Value.num 1), ("q", Value.num 3)]]).getV "q"
      = sumQty [Value.num 2, Value.num 3]
    ∧ deduplicate (Table.mk ["k"] [[("k", Value.num 1)]]) ["k"] (some "q") "aggregate"
      = deduplicate (Table.mk ["k"] [[("k", Value.num 1)]]) ["k"] (some "q") "keep_first"
    ∧ (deduplicate (Table.mk ["k", "q"]
        [[("k", Value.num 1), ("q", Value.num 2)],
         [("k", Value.num 1), ("q", Value.num 3)]]) ["k"] (some "q") "aggregate").1.rows
      = (dedupFirst [] ((Table.mk ["k", "q"]
          [[("k", Value.num 1), ("q", Value.num 2)],
           [("k", Value.num 1), ("q", Value.num 3)]]).rows.map
            (keyOf (["k"].filter (fun k => k ∈ (Table.mk ["k", "q"]
              [[("k", Value.num 1), ("q", Value.num 2)],
               [("k", Value.num 1), ("q", Value.num 3)]]).cols))))).map
          (fun k => aggGroup ["k", "q"] (["k"].filter (fun kk => kk ∈ (["k", "q"] : List String))) "q"
            ((Table.mk ["k", "q"]
              [[("k", Value.num 1), ("q", Value.num 2)],
               [("k", Value.num 1), ("q", Value.num 3)]]).rows.filter
                (fun r => keyOf (["k"].filter (fun kk => kk ∈ (["k", "q"] : List String))) r == k))) := by
  refine ⟨?_, ?_, ?_⟩
  · rw [C8_dedup_aggregate.1 ["k", "q"] ["k"] "q" "q"
      [[("k", Value.num 1), ("q", Value.num 2)],
       [("k", Value.num 1), ("q", Value.num 3)]] (by decide)]
    decide
  · exact C8_dedup_aggregate.2.1 (Table.mk ["k"] [[("k", Value.num 1)]])
      ["k"] "q" (by decide)
  · exact C8_dedup_aggregate.2.2.1 (Table.mk ["k", "q"]
      [[("k", Value.num 1), ("q", Value.num 2)],
       [("k", Value.num 1), ("q", Value.num 3)]]) ["k"] "q"
      (by decide) (by decide) (by decide) (by decide)

/-- Length of an optionally mapped list. -/
theorem ite_map_length (b : Bool) (f : α → α) (l : List α) :
    (if b then l.map f else l).length = l.length := by
  cases b <;> simp

/-- A column has one entry per row. -/
theorem col_length (t : Table) (c : String) : (t.col c).length = t.rows.length := by
  simp [Table.col]

/-- Filling one column keeps the shape. -/
theorem fillColumn_shape (t : Table) (c : String) (fv : Value) :
    (fillColumn t c fv).cols = t.cols
    ∧ (fillColumn t c fv).rows.length = t.rows.length :=
  ⟨rfl, rowsLen_setCol t c _ (by simp [Table.col])⟩

/-- The numeric fill loop keeps the shape. -/
theorem numFillLoop_shape (st : String) (cs : List String) (t : Table)
    (rep : List (String × ℕ)) :
    (numFillLoop st cs t rep).1.cols = t.cols
    ∧ (numFillLoop st cs t rep).1.rows.length = t.rows.length := by
  induction cs generalizing t rep with
  | nil => exact ⟨rfl, rfl⟩
  | cons c cs ih =>
    simp only [numFillLoop]
    cases numFillVal st (t.col c) with
    | some q =>
      refine ⟨?_, ?_⟩
      · rw [(ih (fillColumn t c (Value.num q)) _).1]
        exact (fillColumn_shape t c (Value.num q)).1
      · rw [(ih (fillColumn t c (Value.num q)) _).2]
        exact (fillColumn_shape t c (Value.num q)).2
    | none => exact ih t _

/-- The categorical fill loop keeps the shape. -/
theorem catFillLoop_shape (cs : List String) (t : Table)
    (rep : List (String × ℕ)) :
    (catFillLoop cs t rep).1.cols = t.cols
    ∧ (catFillLoop cs t rep).1.rows.length = t.rows.length := by
  induction cs generalizing t rep with
  | nil => exact ⟨rfl, rfl⟩
  | cons c cs ih =>
    simp only [catFillLoop]
    cases modeVal (t.col c) with
    | some m =>
      refine ⟨?_, ?_⟩
      · rw [(ih (fillColumn t c m) _).1]
        exact (fillColumn_shape t c m).1
      · rw [(ih (fillColumn t c m) _).2]
        exact (fillColumn_shape t c m).2
    | none => exact ih t _

/-- The date loop keeps the shape. -/
theorem dateFieldsLoop_shape (tn : Bool) (tf : String) (fmts : List String)
    (fs : List String) (t : Table) (rep : List (String × ℕ)) :
    (dateFieldsLoop tn tf fmts fs t rep).1.cols = t.cols
    ∧ (dateFieldsLoop tn tf fmts fs t rep).1.rows.length = t.rows.length := by
  induction fs generalizing t rep with
  | nil => exact ⟨rfl, rfl⟩
  | cons f fs ih =>
    simp only [dateFieldsLoop]
    by_cases hf : f ∈ t.cols
    · rw [if_pos hf]
      refine ⟨?_, ?_⟩
      · rw [(ih _ _).1]
        exact cols_setCol t f _
      · rw [(ih _ _).2]
        apply rowsLen_setCol
        cases tn <;> simp [Table.col, List.length_zip]
    · rw [if_neg hf]
      exact ih t rep

/-- The price loop keeps the shape. -/
theorem priceFieldsLoop_shape (dp : ℤ) (co : Bool) (fs : List String)
    (t : Table) (rep : List (String × ℕ)) :
    (priceFieldsLoop dp co fs t rep).1.cols = t.cols
    ∧ (priceFieldsLoop dp co fs t rep).1.rows.length = t.rows.length := by
  induction fs generalizing t rep with
  | nil => exact ⟨rfl, rfl⟩
  | cons f fs ih =>
    simp only [priceFieldsLoop]
    by_cases hf : f ∈ t.cols
    · rw [if_pos hf]
      refine ⟨?_, ?_⟩
      · rw [(ih _ _).1]
        exact cols_setCol t f _
      · rw [(ih _ _).2]
        apply rowsLen_setCol
        simp [Table.col, List.length_zip]
    · rw [if_neg hf]
      exact ih t rep

/-- The categorical loop keeps the shape. -/
theorem catFieldsLoop_shape (lc stripF collapse ampersand : Bool)
    (maps : List (String × List (String × String))) (fs : List String)
    (t : Table) (rep : List (String × ℕ)) :
    (catFieldsLoop lc stripF collapse ampersand maps fs t rep).1.cols = t.cols
    ∧ (catFieldsLoop lc stripF collapse ampersand maps fs t rep).1.rows.length
      = t.rows.length := by
  induction fs generalizing t rep with
  | nil => exact ⟨rfl, rfl⟩
  | cons f fs ih =>
    simp only [catFieldsLoop]
    by_cases hf : f ∈ t.cols
    · rw [if_pos hf]
      refine ⟨?_, ?_⟩
      · rw [(ih _ _).1]
        exact cols_setCol t f _
      · rw [(ih _ _).2]
        apply rowsLen_setCol
        cases stripF <;> cases lc <;> cases ampersand <;> cases collapse <;>
          simp [Table.col]
    · rw [if_neg hf]
      exact ih t rep

/-- The boolean loop keeps the shape. -/
theorem boolFieldsLoop_shape (fs : List String) (t : Table)
    (rep : List (String × ℕ)) :
    (boolFieldsLoop fs t rep).1.cols = t.cols
    ∧ (boolFieldsLoop fs t rep).1.rows.length = t.rows.length := by
  induction fs generalizing t rep with
  | nil => exact ⟨rfl, rfl⟩
  | cons f fs ih =>
    simp only [boolFieldsLoop]
    by_cases hf : f ∈ t.cols
    · rw [if_pos hf]
      refine ⟨?_, ?_⟩
      · rw [(ih _ _).1]
        exact cols_setCol t f _
      · rw [(ih _ _).2]
        apply rowsLen_setCol
        simp [Table.col]
    · rw [if_neg hf]
      exact ih t rep

/-- First-occurrence dedup never lengthens a list. -/
theorem dedupFirst_length_le [DecidableEq α] (seen : List α) (l : List α) :
    (dedupFirst seen l).length ≤ l.length := by
  induction l generalizing seen with
  | nil => exact le_refl 0
  | cons x xs ih =>
    simp only [dedupFirst]
    by_cases hx : x ∈ seen
    · rw [if_pos hx]
      exact le_trans (ih seen) (Nat.le_succ _)
    · rw [if_neg hx]
      simpa using ih (x :: seen)

/-- Keep-first dedup never lengthens the row list. -/
theorem keepFirstRows_length_le (ks : List String)
    (seen : List (List Value)) (rows : List Row) :
    (keepFirstRows ks seen rows).length ≤ rows.length := by
  induction rows generalizing seen with
  | nil => exact le_refl 0
  | cons r rs ih =>
    simp only [keepFirstRows]
    by_cases hr : keyOf ks r ∈ seen
    · rw [if_pos hr]
      exact le_trans (ih seen) (Nat.le_succ _)
    · rw [if_neg hr]
      simpa using ih (keyOf ks r :: seen)

/-- C1: every cleaning step preserves the row count — except
deduplication, which can only reduce it — and every step, dedup
included, preserves the column list of the table. -/
theorem C1_shape_preservation :
    (∀ (t : Table) (cfg : MissingConfig),
      (impute_missing t cfg).1.cols = t.cols
      ∧ (impute_missing t cfg).1.rows.length = t.rows.length)
    ∧ (∀ (t : Table) (fields : List String) (tn : Bool) (tf : String)
        (fmts : List String),
        (standardize_dates t fields tn tf fmts).1.cols = t.cols
        ∧ (standardize_dates t fields tn tf fmts).1.rows.length = t.rows.length)
    ∧ (∀ (t : Table) (fields : List String) (dp : ℤ) (co : Bool),
        (standardize_prices t fields dp co).1.cols = t.cols
        ∧ (standardize_prices t fields dp co).1.rows.length = t.rows.length)
    ∧ (∀ (t : Table) (c : String) (dp : ℤ) (imp : RatImpute),
        (standardize_ratings t c dp imp).1.cols = t.cols
        ∧ (standardize_ratings t c dp imp).1.rows.length = t.rows.length)
    ∧ (∀ (t : Table) (fields : List String) (a b c2 d : Bool)
        (maps : List (String × List (String × String))),
        (standardize_categories t fields a b c2 d maps).1.cols = t.cols
        ∧ (standardize_categories t fields a b c2 d maps).1.rows.length
          = t.rows.length)
    ∧ (∀ (t : Table) (col : Option String) (canon : List String)
        (maps : List (String × String)) (ft : ℚ),
        (resolve_cities t col canon maps ft).1.cols = t.cols
        ∧ (resolve_cities t col canon maps ft).1.rows.length = t.rows.length)
    ∧ (∀ (t : Table) (fields : List String),
        (standardize_booleans t fields).1.cols = t.cols
        ∧ (standardize_booleans t fields).1.rows.length = t.rows.length)
    ∧ (∀ (t : Table) (col : Option String) (md : ℤ) (cm : Bool),
        (standardize_delivery t col md cm).1.cols = t.cols
        ∧ (standardize_delivery t col md cm).1.rows.length = t.rows.length)
    ∧ (∀ (t : Table) (keys : List String) (qty : Option String) (strat : String),
        (deduplicate t keys qty strat).1.cols = t.cols
        ∧ (deduplicate t keys qty strat).1.rows.length ≤ t.rows.length)
    ∧ (∀ (t : Table) (col : Option String) (hf : ℚ) (cands : List ℤ) (dp : ℤ),
        (correct_outliers t col hf cands dp).1.cols = t.cols
        ∧ (correct_outliers t col hf cands dp).1.rows.length = t.rows.length)
    ∧ (∀ (t : Table) (col : Option String) (extra : List (String × String)),
        (normalize_payment t col extra).1.cols = t.cols
        ∧ (normalize_payment t col extra).1.rows.length = t.rows.length) := by
  refine ⟨?_, ?_, ?_, ?_, ?_, ?_, ?_, ?_, ?_, ?_, ?_⟩
  · intro t cfg
    constructor
    · simp only [impute_missing]
      split <;> split
      · rfl
      · rw [(catFillLoop_shape _ _ _).1, (numFillLoop_shape _ _ _ _).1]
      · rfl
      · rw [(catFillLoop_shape _ _ _).1, (numFillLoop_shape _ _ _ _).1]
    · simp only [impute_missing]
      split <;> split
      · rfl
      · rw [(catFillLoop_shape _ _ _).2, (numFillLoop_shape _ _ _ _).2]
      · rfl
      · rw [(catFillLoop_shape _ _ _).2, (numFillLoop_shape _ _ _ _).2]
  · intro t fields tn tf fmts
    exact dateFieldsLoop_shape tn tf fmts fields t _
  · intro t fields dp co
    exact priceFieldsLoop_shape dp co fields t _
  · intro t c dp imp
    unfold standardize_ratings
    split
    · refine ⟨rfl, ?_⟩
      apply rowsLen_setCol
      simp [Table.col]
    · exact ⟨rfl, rfl⟩
  · intro t fields a b c2 d maps
    exact catFieldsLoop_shape a b c2 d maps fields t _
  · intro t col canon maps ft
    unfold resolve_cities
    split
    · exact ⟨rfl, rfl⟩
    · split
      · exact ⟨rfl, rfl⟩
      · refine ⟨rfl, ?_⟩
        apply rowsLen_setCol
        simp [Table.col]
  · intro t fields
    exact boolFieldsLoop_shape fields t _
  · intro t col md cm
    unfold standardize_delivery
    split
    · exact ⟨rfl, rfl⟩
    · split
      · exact ⟨rfl, rfl⟩
      · refine ⟨rfl, ?_⟩
        apply rowsLen_setCol
        simp [Table.col]
  · intro t keys qty strat
    simp only [deduplicate]
    by_cases h1 : keys = []
    · rw [if_pos h1]
      exact ⟨rfl, le_refl _⟩
    · rw [if_neg h1]
      by_cases h2 : keys.filter (fun k => k ∈ t.cols) = []
      · rw [if_pos h2]
        exact ⟨rfl, le_refl _⟩
      · rw [if_neg h2]
        by_cases h3 : strat = "aggregate" ∧ truthyCol qty = true
            ∧ qty.getD "" ∈ t.cols
        · rw [if_pos h3]
          refine ⟨rfl, ?_⟩
          calc ((dedupFirst [] (t.rows.map
                (keyOf (keys.filter (fun k => k ∈ t.cols))))).map _).length
              = (dedupFirst [] (t.rows.map
                (keyOf (keys.filter (fun k => k ∈ t.cols))))).length :=
                List.length_map _ _
            _ ≤ (t.rows.map (keyOf (keys.filter (fun k => k ∈ t.cols)))).length :=
                dedupFirst_length_le _ _
            _ = t.rows.length := List.length_map _ _
        · rw [if_neg h3]
          exact ⟨rfl, keepFirstRows_length_le _ _ _⟩
  · intro t col hf cands dp
    unfold correct_outliers
    split
    · exact ⟨rfl, rfl⟩
    · split
      · exact ⟨rfl, rfl⟩
      · refine ⟨rfl, ?_⟩
        apply rowsLen_setCol
        rw [List.length_map, outlierLoop_fst, List.length_map, List.length_zip]
        simp [Table.col]
  · intro t col extra
    unfold normalize_payment
    split
    · exact ⟨rfl, rfl⟩
    · split
      · exact ⟨rfl, rfl⟩
      · refine ⟨rfl, ?_⟩
        apply rowsLen_setCol
        simp [Table.col]

/-- C2 counterexample: with the default configuration the price step
has no configured fields, yet "price" (like "missing", "dates",
"categorical" and "geo") still appears as a key of the returned report
map — the unconditional steps are never absent. -/
theorem C2_step_keys_cex :
    defaultConfig.price.fields = []
    ∧ (run_cleaning (Table.mk ["a"] [[("a", Value.str "x")]]) defaultConfig).2.map
        Prod.fst = ["missing", "dates", "price", "categorical", "geo"] := by
  refine ⟨rfl, by decide⟩

/-- C2 amended: the orchestrator runs the steps in the fixed order
missing, dates, price, ratings, categorical, geo, booleans, delivery,
dedup, outliers, payment; ratings, booleans, delivery, dedup, outliers
and payment are skipped (absent from the report) when their column,
field list or key list is absent or empty, while missing, dates, price,
categorical and geo always run and always appear in the report. -/
theorem C2_step_order (t : Table) (cfg : PipelineConfig) :
    (run_cleaning t cfg).2.map Prod.fst
      = ["missing", "dates", "price"]
        ++ (if truthyCol cfg.ratings.column then ["ratings"] else [])
        ++ ["categorical", "geo"]
        ++ (if cfg.booleans.fields ≠ [] then ["booleans"] else [])
        ++ (if truthyCol cfg.delivery.column then ["delivery"] else [])
        ++ (if cfg.dedup.key_fields ≠ [] then ["dedup"] else [])
        ++ (if truthyCol cfg.outliers.column then ["outliers"] else [])
        ++ (if truthyCol cfg.payment.column then ["payment"] else []) := by
  by_cases h4 : truthyCol cfg.ratings.column = true <;>
    by_cases h7 : cfg.booleans.fields ≠ [] <;>
    by_cases h8 : truthyCol cfg.delivery.column = true <;>
    by_cases h9 : cfg.dedup.key_fields ≠ [] <;>
    by_cases h10 : truthyCol cfg.outliers.column = true <;>
    by_cases h11 : truthyCol cfg.payment.column = true <;>
    simp [run_cleaning, optRep, optTab, h4, h7, h8, h9, h10, h11]

/-- C3 counterexample: running the full pipeline a second time on the
cleaned output changes the table again — the remap writes "B", which
the second pass lowercases to "b" — so the pipeline is not idempotent,
and the second categorical report shows one change, not zero. -/
theorem C3_idempotence_cex :
    (run_cleaning (run_cleaning cexTable cexConfig).1 cexConfig).1
      ≠ (run_cleaning cexTable cexConfig).1
    ∧ dictGet (run_cleaning (run_cleaning cexTable cexConfig).1 cexConfig).2
        "categorical" = some [("categories_standardized", RVal.fs [("cat", 1)])] := by
  refine ⟨by decide, by decide⟩

/-- Keep-first deduplication is idempotent on its own output. -/
theorem keepFirstRows_idem (ks : List String) (seen : List (List Value))
    (rows : List Row) :
    keepFirstRows ks seen (keepFirstRows ks seen rows)
      = keepFirstRows ks seen rows := by
  induction rows generalizing seen with
  | nil => rfl
  | cons r rs ih =>
    simp only [keepFirstRows]
    by_cases hr : keyOf ks r ∈ seen
    · rw [if_pos hr]
      exact ih seen
    · rw [if_neg hr]
      simp only [keepFirstRows, if_neg hr]
      rw [ih (keyOf ks r :: seen)]

/-- C3 amended: the pipeline as a whole is not idempotent, but the
deduplication step with the keep_first strategy is, once duplicates are
removed: re-running it on its own output returns the table unchanged
and reports zero dropped rows. -/
theorem C3_dedup_keepfirst_idem (t : Table) (keys : List String)
    (qty : Option String) :
    (deduplicate (deduplicate t keys qty "keep_first").1 keys qty "keep_first").1
      = (deduplicate t keys qty "keep_first").1
    ∧ dictGet
        (deduplicate (deduplicate t keys qty "keep_first").1 keys qty
          "keep_first").2 "dropped" = some (RVal.n 0) := by
  have hkf : ∀ (u : Table), ¬("keep_first" = "aggregate" ∧ truthyCol qty = true
      ∧ qty.getD "" ∈ u.cols) := fun u h => absurd h.1 (by decide)
  by_cases h1 : keys = []
  · simp only [deduplicate, if_pos h1]
    exact ⟨by trivial, by trivial⟩
  · by_cases h2 : keys.filter (fun k => k ∈ t.cols) = []
    · simp only [deduplicate, if_neg h1]
      rw [if_pos h2]
      simp only [deduplicate, if_neg h1]
      rw [if_pos h2]
      exact ⟨by trivial, by trivial⟩
    · simp only [deduplicate, if_neg h1]
      rw [if_neg h2, if_neg (hkf t)]
      simp only [deduplicate, if_neg h1]
      rw [if_neg h2, if_neg (hkf t)]
      rw [keepFirstRows_idem]
      refine ⟨by trivial, ?_⟩
      rw [Nat.sub_self]
      rfl

end DataPipeline
